import Mathlib

/-!
# Verification of the geobed in-memory geocoder (SocialHarvest/geobed)

This file is a shallow embedding, in Lean 4, of the core data engine of the
geobed Go package (`geobed.go`): dataset ingestion and normalization, the
sorted city store and its one/two-character prefix index, the forward-geocoding
scoring phases, and the reverse-geocoding geohash-proximity scan.

Modelling conventions:
* Go strings are byte sequences; we model them as `List Nat` with every
  element `< 256` on real data.  Go string comparison is byte-wise
  lexicographic, `s[i]` is a byte access (panicking when out of bounds),
  and `string(b)` for an integer/byte `b` is the UTF-8 encoding of the code
  point `b`.
* Go `float64` latitude/longitude values are modelled as rationals (`ℚ`).
  All concrete inputs used in theorems below are integers, which are exactly
  representable in `float64`, so the rational model agrees with the Go
  semantics on every input actually evaluated.
* Fallible/panicking code paths are modelled with `Option`: a result of
  `none` marks a run-time panic (out-of-range index or slice).
* Go map iteration order is unspecified; phases that iterate a map are
  modelled as folds over an association list, and theorems quantify over the
  iteration order (an arbitrary permutation of the entries) whenever the
  order could matter.
-/

namespace Geobed

/-- A Go byte string: the sequence of bytes of the string. -/
abbrev ByteStr := List Nat

/-- `toLower` from geobed.go: ASCII-only lowercasing, byte by byte.
(The Go source deliberately implements its own ASCII-only fast version.) -/
def toLower (s : ByteStr) : ByteStr :=
  s.map (fun b => if 65 ≤ b ∧ b ≤ 90 then b + 32 else b)

/-- `toUpper` from geobed.go: ASCII-only uppercasing, byte by byte. -/
def toUpper (s : ByteStr) : ByteStr :=
  s.map (fun b => if 97 ≤ b ∧ b ≤ 122 then b - 32 else b)

/-- Go string `<` (byte-wise lexicographic comparison), used by
`Cities.Less` for sorting the city store. -/
def goStrLt : ByteStr → ByteStr → Bool
  | [], [] => false
  | [], _ :: _ => true
  | _ :: _, [] => false
  | a :: as, b :: bs => if a < b then true else if b < a then false else goStrLt as bs

/-- Split off everything before the first occurrence of byte `sep`:
returns `(prefix, rest-after-separator)`, or `none` when `sep` is absent. -/
def splitFirst (sep : Nat) : ByteStr → Option (ByteStr × ByteStr)
  | [] => none
  | b :: rest =>
    if b = sep then some ([], rest)
    else (splitFirst sep rest).map (fun p => (b :: p.1, p.2))

/-- `regexp.MustCompile(sep).Split(s, n)` for a single literal byte `sep`:
at most `n` pieces, the last piece keeping the unsplit remainder.
geobed.go uses this with `sep = '\t'` and `n = 19`. -/
def splitN (sep : Nat) : Nat → ByteStr → List ByteStr
  | 0, _ => []
  | 1, s => [s]
  | n + 2, s =>
    match splitFirst sep s with
    | none => [s]
    | some (pre, post) => pre :: splitN sep (n + 1) post

/-- `strings.Split(s, sep)` for a single-byte separator (used with `","`
for the MaxMind feed and `" "` for query tokenization). -/
def splitAll (sep : Nat) : ByteStr → List ByteStr
  | [] => [[]]
  | b :: rest =>
    if b = sep then [] :: splitAll sep rest
    else
      match splitAll sep rest with
      | [] => [[b]]
      | p :: ps => (b :: p) :: ps

/-- `strings.Trim(s, cutset)` for an ASCII cutset: remove leading and
trailing bytes that appear in `cut`. -/
def trimCut (cut : ByteStr) (s : ByteStr) : ByteStr :=
  ((s.dropWhile (fun b => cut.contains b)).reverse.dropWhile
    (fun b => cut.contains b)).reverse

/-- `strings.TrimSuffix(s, c)` for a single-byte suffix `c`. -/
def trimSuffix1 (c : Nat) (s : ByteStr) : ByteStr :=
  if s.getLast? = some c then s.dropLast else s

/-- ASCII model of `strings.EqualFold` (Unicode simple case folding
restricted to ASCII, which is what all claim-relevant data exercises). -/
def equalFold (s t : ByteStr) : Bool :=
  toLower s == toLower t

/-- `strings.Contains(s, sub)`. -/
def containsSub (sub : ByteStr) : ByteStr → Bool
  | [] => sub.isEmpty
  | b :: rest => sub.isPrefixOf (b :: rest) || containsSub sub rest

/-- ASCII whitespace test used by the `strings.Fields` model. -/
def isWsByte (b : Nat) : Bool :=
  b = 9 || b = 10 || b = 11 || b = 12 || b = 13 || b = 32

/-- `strings.Fields` (ASCII model): split around runs of whitespace. -/
def fieldsAux (cur : ByteStr) : ByteStr → List ByteStr
  | [] => if cur.isEmpty then [] else [cur.reverse]
  | b :: rest =>
    if isWsByte b then
      if cur.isEmpty then fieldsAux [] rest
      else cur.reverse :: fieldsAux [] rest
    else fieldsAux (b :: cur) rest

/-- `strings.Fields s` (ASCII model). -/
def fields (s : ByteStr) : List ByteStr := fieldsAux [] s

/-- Go `string(r)` conversion for an integer code point `r`: the UTF-8
encoding, with invalid code points replaced by U+FFFD.  geobed.go performs
this conversion in `string(v.CityLower[0])` (index key construction) and in
`string(prev(rune(fc[0])))` (previous-prefix computation). -/
def encodeRune (r : Int) : ByteStr :=
  if r < 0 then [239, 191, 189]
  else if r < 128 then [r.toNat]
  else if r < 2048 then [192 + r.toNat / 64, 128 + r.toNat % 64]
  else if 55296 ≤ r ∧ r ≤ 57343 then [239, 191, 189]
  else if r < 65536 then
    [224 + r.toNat / 4096, 128 + r.toNat / 64 % 64, 128 + r.toNat % 64]
  else if r < 1114112 then
    [240 + r.toNat / 262144, 128 + r.toNat / 4096 % 64,
     128 + r.toNat / 64 % 64, 128 + r.toNat % 64]
  else [239, 191, 189]

/-- Is `b` a UTF-8 continuation byte? -/
def isCont (b : Nat) : Bool := 128 ≤ b && b < 192

/-- `unicode/utf8.DecodeRuneInString`: first rune and its byte size;
invalid encodings yield `(0xFFFD, 1)`; `none` only on the empty string. -/
def decodeFirst : ByteStr → Option (Nat × Nat)
  | [] => none
  | b :: rest =>
    if b < 128 then some (b, 1)
    else if b < 194 then some (65533, 1)
    else if b < 224 then
      match rest with
      | c1 :: _ =>
        if isCont c1 then some ((b - 192) * 64 + (c1 - 128), 2)
        else some (65533, 1)
      | [] => some (65533, 1)
    else if b < 240 then
      match rest with
      | c1 :: c2 :: _ =>
        if (if b = 224 then 160 ≤ c1 && c1 < 192
            else if b = 237 then 128 ≤ c1 && c1 < 160
            else isCont c1) && isCont c2 then
          some ((b - 224) * 4096 + (c1 - 128) * 64 + (c2 - 128), 3)
        else some (65533, 1)
      | _ => some (65533, 1)
    else if b < 245 then
      match rest with
      | c1 :: c2 :: c3 :: _ =>
        if (if b = 240 then 144 ≤ c1 && c1 < 192
            else if b = 244 then 128 ≤ c1 && c1 < 144
            else isCont c1) && isCont c2 && isCont c3 then
          some ((b - 240) * 262144 + (c1 - 128) * 4096 + (c2 - 128) * 64 + (c3 - 128), 4)
        else some (65533, 1)
      | _ => some (65533, 1)
    else some (65533, 1)

/-- `unicode/utf8.DecodeLastRuneInString`: last rune and its byte size;
all irregular encodings yield `(0xFFFD, 1)`. -/
def decodeLast (s : ByteStr) : Option (Nat × Nat) :=
  match s.reverse with
  | [] => none
  | b :: rest =>
    if b < 128 then some (b, 1)
    else if ¬ isCont b then some (65533, 1)
    else
      match rest with
      | [] => some (65533, 1)
      | r1 :: rest2 =>
        if ¬ isCont r1 then
          match decodeFirst [r1, b] with
          | some (r, 2) => some (r, 2)
          | _ => some (65533, 1)
        else
          match rest2 with
          | [] => some (65533, 1)
          | r2 :: rest3 =>
            if ¬ isCont r2 then
              match decodeFirst [r2, r1, b] with
              | some (r, 3) => some (r, 3)
              | _ => some (65533, 1)
            else
              match rest3 with
              | [] => some (65533, 1)
              | r3 :: _ =>
                if ¬ isCont r3 then
                  match decodeFirst [r3, r2, r1, b] with
                  | some (r, 4) => some (r, 4)
                  | _ => some (65533, 1)
                else some (65533, 1)

/-- `unicode.IsSpace`: the White_Space property (finite code point set). -/
def isSpaceRune (r : Nat) : Bool :=
  r = 9 || r = 10 || r = 11 || r = 12 || r = 13 || r = 32 ||
  r = 133 || r = 160 || r = 5760 || (8192 ≤ r && r ≤ 8202) ||
  r = 8232 || r = 8233 || r = 8239 || r = 8287 || r = 12288

/-- Left half of `strings.TrimSpace`: drop leading whitespace runes.
`fuel` bounds the recursion; callers pass the string length. -/
def trimLeftSpace : Nat → ByteStr → ByteStr
  | 0, s => s
  | fuel + 1, s =>
    match decodeFirst s with
    | none => s
    | some (r, k) =>
      if isSpaceRune r then trimLeftSpace fuel (s.drop k) else s

/-- Right half of `strings.TrimSpace`: drop trailing whitespace runes. -/
def trimRightSpace : Nat → ByteStr → ByteStr
  | 0, s => s
  | fuel + 1, s =>
    match decodeLast s with
    | none => s
    | some (r, k) =>
      if isSpaceRune r then trimRightSpace fuel (s.take (s.length - k)) else s

/-- `strings.TrimSpace`. -/
def trimSpace (s : ByteStr) : ByteStr :=
  trimRightSpace s.length (trimLeftSpace s.length s)

/-- The rune sequence of a byte string (UTF-8 decoding, invalid bytes
becoming U+FFFD), used to state "consists only of whitespace". -/
def runesOf : Nat → ByteStr → List Nat
  | 0, _ => []
  | fuel + 1, s =>
    match decodeFirst s with
    | none => []
    | some (r, k) => r :: runesOf fuel (s.drop k)

/-- "The query consists only of whitespace" (vacuously true of the empty
string): every decoded rune has the White_Space property. -/
def allSpace (s : ByteStr) : Bool :=
  (runesOf s.length s).all isSpaceRune

end Geobed

namespace Geobed

/-!
## Geohash encoding

geobed.go calls `geohash.Encode` (TomiHiltunen/geohash-golang): 12 base-32
characters, produced by interleaved binary bisection of the longitude and
latitude intervals, taking the upper half-interval exactly when the
coordinate is strictly greater than the midpoint.  Interval bounds after
`s` halvings are dyadic rationals `bound / 2^s`; we track the scaled integer
numerators, so each comparison `x > (lo+hi)/2^(s+1)` becomes the integer
comparison `x.num * 2^(s+1) > (lo+hi) * x.den`.
-/

/-- One bisection bit plus the updated (scaled) interval. -/
def ghStep (x : ℚ) (iv : Int × Int × Nat) : Bool × (Int × Int × Nat) :=
  let (lo, hi, s) := iv
  if x.num * 2 ^ (s + 1) > (lo + hi) * (x.den : Int) then
    (true, (lo + hi, 2 * hi, s + 1))
  else
    (false, (2 * lo, lo + hi, s + 1))

/-- The interleaved bit stream (longitude first, as in the library). -/
def ghBits (lng lat : ℚ) : Nat → Bool → (Int × Int × Nat) → (Int × Int × Nat) → List Bool
  | 0, _, _, _ => []
  | n + 1, isEven, lngIv, latIv =>
    if isEven then
      let (b, iv) := ghStep lng lngIv
      b :: ghBits lng lat n false iv latIv
    else
      let (b, iv) := ghStep lat latIv
      b :: ghBits lng lat n true lngIv iv

/-- The geohash base-32 alphabet `0123456789bcdefghjkmnpqrstuvwxyz`. -/
def ghAlphabet : ByteStr :=
  [48, 49, 50, 51, 52, 53, 54, 55, 56, 57, 98, 99, 100, 101, 102, 103,
   104, 106, 107, 109, 110, 112, 113, 114, 115, 116, 117, 118, 119, 120, 121, 122]

/-- Pack bits five at a time into base-32 characters. -/
def bitsToChars : List Bool → ByteStr
  | b1 :: b2 :: b3 :: b4 :: b5 :: rest =>
    ghAlphabet.getD
      ((cond b1 16 0) + (cond b2 8 0) + (cond b3 4 0) + (cond b4 2 0) + (cond b5 1 0)) 0
      :: bitsToChars rest
  | _ => []

/-- `geohash.Encode(lat, lng)`: the 12-character geohash. -/
def geohashEncode (lat lng : ℚ) : ByteStr :=
  bitsToChars (ghBits lng lat 60 true (-180, 180, 0) (-90, 90, 0))

/-- The degenerate sentinel geohash `"7zzzzzzzzzzz"` produced for the origin
point; geobed.go clears it during ingestion and short-circuits on it during
reverse geocoding. -/
def sentinelGeohash : ByteStr :=
  [55, 122, 122, 122, 122, 122, 122, 122, 122, 122, 122, 122]

/-!
## Numeric parsing
-/

/-- Parse a nonempty all-digit byte string. -/
def parseDigitsAux (acc : Nat) : ByteStr → Option Nat
  | [] => some acc
  | b :: rest =>
    if 48 ≤ b ∧ b ≤ 57 then parseDigitsAux (acc * 10 + (b - 48)) rest else none

/-- Digits of a decimal natural number, `none` on anything else. -/
def parseDigits (s : ByteStr) : Option Nat :=
  if s.isEmpty then none else parseDigitsAux 0 s

/-- `strconv.Atoi`: optional sign, decimal digits; out-of-range results are
clamped to the 64-bit integer range (Go returns the clamped value together
with the range error, and geobed.go ignores the error). -/
def atoi (s : ByteStr) : Option Int :=
  match s with
  | 43 :: rest => (parseDigits rest).map (fun n => min (n : Int) (2 ^ 63 - 1))
  | 45 :: rest => (parseDigits rest).map (fun n => max (-(n : Int)) (-(2 ^ 63)))
  | _ => (parseDigits s).map (fun n => min (n : Int) (2 ^ 63 - 1))

/-- `strconv.ParseFloat` restricted to plain decimal forms
(`[+|-] digits [. digits]`): the exact rational value.  All coordinate
strings evaluated by the theorems in this file are integers, exactly
representable in `float64`, so this model agrees with Go on them; other
syntactic forms are treated as parse failures, as Go does for the malformed
inputs exercised here. -/
def parseDecimalBody (s : ByteStr) : Option ℚ :=
  match splitFirst 46 s with
  | none => (parseDigits s).map (fun n => (n : ℚ))
  | some (ip, fp) =>
    if ip.isEmpty ∧ fp.isEmpty then none
    else
      match (if ip.isEmpty then some 0 else parseDigits ip),
            (if fp.isEmpty then some 0 else parseDigits fp) with
      | some i, some f =>
        if fp.isEmpty then some (i : ℚ)
        else some ((i : ℚ) + (f : ℚ) / (10 ^ fp.length : ℚ))
      | _, _ => none

/-- `strconv.ParseFloat` (decimal subset, with optional sign). -/
def parseFloat (s : ByteStr) : Option ℚ :=
  match s with
  | 43 :: rest => parseDecimalBody rest
  | 45 :: rest => (parseDecimalBody rest).map (fun q => -q)
  | _ => parseDecimalBody s

/-- Go `int32(x)` conversion: two's-complement truncation. -/
def int32cast (x : Int) : Int :=
  (x + 2 ^ 31) % 2 ^ 32 - 2 ^ 31

/-!
## The city store
-/

/-- `GeobedCity` from geobed.go (latitude/longitude as exact rationals,
population as the mathematical value of the `int32` field). -/
structure GeobedCity where
  City : ByteStr
  CityLower : ByteStr
  CityAlt : ByteStr
  Country : ByteStr
  Region : ByteStr
  Latitude : ℚ
  Longitude : ℚ
  Population : Int
  Geohash : ByteStr
deriving DecidableEq

/-- The zero value of `GeobedCity`: the sentinel "empty City" returned for
degenerate queries. -/
def emptyCity : GeobedCity :=
  { City := [], CityLower := [], CityAlt := [], Country := [], Region := [],
    Latitude := 0, Longitude := 0, Population := 0, Geohash := [] }

/-- `Cities.Less` from geobed.go orders by `CityLower` (Go string `<`);
`sort.Sort` establishes the corresponding non-strict order.  `cityLe a b`
says `a` need not come after `b`. -/
def cityLe (a b : GeobedCity) : Prop :=
  goStrLt b.CityLower a.CityLower = false

instance : DecidableRel cityLe := fun _ _ => instDecidableEqBool _ false

/-- One line of the Geonames cities1000 feed (tab-separated, 19 columns):
the `GeobedCity` appended to the store, or `none` when the row is skipped.
Numeric parse failures degrade to zero; the sentinel geohash is cleared;
rows with an empty (space-trimmed) city name are dropped. -/
def parseGeonamesLine (t : ByteStr) : Option GeobedCity :=
  let fs := splitN 9 19 t
  if fs.length = 19 then
    let lat := (parseFloat (fs.getD 4 [])).getD 0
    let lng := (parseFloat (fs.getD 5 [])).getD 0
    let pop := (atoi (fs.getD 14 [])).getD 0
    let gh0 := geohashEncode lat lng
    let gh := if gh0 = sentinelGeohash then [] else gh0
    let city := trimCut [32] (fs.getD 1 [])
    if 0 < city.length then
      some { City := city, CityLower := toLower city, CityAlt := fs.getD 3 [],
             Country := fs.getD 8 [], Region := fs.getD 10 [],
             Latitude := lat, Longitude := lng,
             Population := int32cast pop, Geohash := gh }
    else none
  else none

/-- Replace the value at a key of an association list, appending when the
key is absent (the content of a Go map write; one entry per key). -/
def assocReplace : List (ByteStr × List ByteStr) → ByteStr → List ByteStr →
    List (ByteStr × List ByteStr)
  | [], k, v => [(k, v)]
  | (k', v') :: rest, k, v =>
    if k' = k then (k, v) :: rest else (k', v') :: assocReplace rest k v

/-- The MaxMind dedupe key: country ++ city ++ population columns. -/
def maxmindKey (fs : List ByteStr) : ByteStr :=
  fs.getD 0 [] ++ fs.getD 1 [] ++ fs.getD 4 []

/-- `maxMindCityDedupeIdx`: the first pass over the MaxMind feed keeps, for
each composite key, the last 7-column row seen.  The association list holds
the map's content; Go iterates it in an unspecified order. -/
def maxmindDedupe (lines : List ByteStr) : List (ByteStr × List ByteStr) :=
  lines.foldl
    (fun m t =>
      let fs := splitAll 44 t
      if fs.length = 7 then assocReplace m (maxmindKey fs) fs else m) []

/-- Second MaxMind pass, for one deduplicated 7-column row: the appended
`GeobedCity`, or `none` when the row is rejected (empty or `"0"` country,
repeated header, disallowed punctuation, empty trimmed name). -/
def maxmindCityOfFields (fs : List ByteStr) : Option GeobedCity :=
  let f0 := fs.getD 0 []
  if f0 ≠ [] ∧ f0 ≠ [48] then
    if fs.getD 2 [] ≠ [65, 99, 99, 101, 110, 116, 67, 105, 116, 121] then
      let pop := (atoi (fs.getD 4 [])).getD 0
      let lat := (parseFloat (fs.getD 5 [])).getD 0
      let lng := (parseFloat (fs.getD 6 [])).getD 0
      let cn := trimCut [40, 32, 41] (trimCut [32] (fs.getD 2 []))
      if containsSub [33] cn || containsSub [64] cn then none
      else
        let gh0 := geohashEncode lat lng
        let gh := if gh0 = sentinelGeohash then [] else gh0
        if 0 < cn.length then
          some { City := cn, CityLower := toLower cn, CityAlt := [],
                 Country := toUpper f0, Region := fs.getD 3 [],
                 Latitude := lat, Longitude := lng,
                 Population := int32cast pop, Geohash := gh }
        else none
    else none
  else none

/-- The city part of `loadDataSets`: Geonames rows are ingested in file
order, then the deduplicated MaxMind rows in map-iteration order
(`maxRows`, an arbitrary permutation of the dedupe map's values), and the
combined slice is sorted by `CityLower`.  (`sort.Sort` is modelled by
`insertionSort`, a comparison sort for the same order; the country-info
feed contributes no cities.) -/
def loadCities (geoLines : List ByteStr) (maxRows : List (List ByteStr)) :
    List GeobedCity :=
  List.insertionSort cityLe
    (geoLines.filterMap parseGeonamesLine ++ maxRows.filterMap maxmindCityOfFields)

/-- `maxRows` is a legal iteration order of the MaxMind dedupe map built
from `lines`: a permutation of the map's values. -/
def ValidIteration (lines : List ByteStr) (maxRows : List (List ByteStr)) : Prop :=
  maxRows.Perm ((maxmindDedupe lines).map Prod.snd)

/-!
## The prefix index (`cityNameIdx`)
-/

/-- Association-list lookup for the prefix index. -/
def idxLookup : List (ByteStr × Nat) → ByteStr → Option Nat
  | [], _ => none
  | (k', v) :: rest, key => if k' = key then some v else idxLookup rest key

/-- Record position `k` for `key`, keeping the larger of the previously
recorded position and `k` (geobed.go's overwrite-if-greater rule). -/
def idxInsert : List (ByteStr × Nat) → ByteStr → Nat → List (ByteStr × Nat)
  | [], key, k => [(key, k)]
  | (k', v) :: rest, key, k =>
    if k' = key then (if v < k then (k', k) else (k', v)) :: rest
    else (k', v) :: idxInsert rest key k

/-- The 1-character index key of a stored city: Go `string(v.CityLower[0])`
(UTF-8 encoding of the byte value).  Every stored entry has a nonempty
`CityLower`, so the default-headed read matches the Go byte access. -/
def cityKey1 (v : GeobedCity) : ByteStr :=
  encodeRune ((v.CityLower.headD 0 : Nat) : Int)

/-- One step of the index construction: record position `kv.1` under the
entry's 1-character key, and under its raw 2-byte prefix when the name has
at least two bytes. -/
def idxStep (m : List (ByteStr × Nat)) (kv : Nat × GeobedCity) :
    List (ByteStr × Nat) :=
  let m1 := idxInsert m (cityKey1 kv.2) kv.1
  if 2 ≤ kv.2.CityLower.length then
    idxInsert m1 (kv.2.CityLower.take 2) kv.1
  else m1

/-- `cityNameIdx` construction: one scan of the sorted store, recording for
each 1-character and (when the name is long enough) 2-character prefix the
highest position seen. -/
def buildIdx (store : List GeobedCity) : List (ByteStr × Nat) :=
  store.enum.foldl idxStep []

/-- `prev` from geobed.go: the previous code point. -/
def prevRune (r : Int) : Int := r - 1

/-- The candidate range Geocode computes for one query token `ns`
(geobed.go lines 513–536): start = recorded position of the previous
prefix, end = recorded position of the token's first-character prefix,
re-pointed to `len(g.c) - 1` when it is zero or unset. -/
def computeRange (idx : List (ByteStr × Nat)) (storeLen : Nat) (ns : ByteStr) :
    Int × Int :=
  let fc := toLower (encodeRune ((ns.headD 0 : Nat) : Int))
  let pik := encodeRune (prevRune ((fc.headD 0 : Nat) : Int))
  let fk : Int := ((idxLookup idx pik).getD 0 : Nat)
  let tk0 : Int := ((idxLookup idx fc).getD 0 : Nat)
  let tk : Int := if tk0 = 0 then (storeLen : Int) - 1 else tk0
  (fk, tk)

end Geobed

namespace Geobed

/-!
## Forward geocoding (`Geocode`)

The country-name and US-state-code stripping passes (geobed.go lines
476–495) build regular expressions from reference data; they are abstracted
below as a `detect` function parameter producing the stripped query and the
detected country/region codes.  Every theorem in this file about `geocode`
holds for an arbitrary `detect`, hence for the real one.

Go map iteration order is unspecified.  `scanScores` returns the score map
as an association list in a canonical order; the phase functions
(`popAdjust`, `selectKey`) are folds over a list of entries, and the
theorems about them quantify over the entry order where it could matter.
-/

/-- Whitespace class of Go regexp `\s` (= `[\t\n\f\r ]`). -/
def isReSpace (b : Nat) : Bool :=
  b = 9 || b = 10 || b = 12 || b = 13 || b = 32

/-- `regexp.MustCompile([\S]{2,3}).FindStringSubmatch(n)`: the leftmost
match of two-or-three non-space bytes (greedy), or `none`.
`FindStringSubmatch` returns only this single leftmost match. -/
def findAbbrev : ByteStr → Option ByteStr
  | [] => none
  | [_] => none
  | b0 :: b1 :: rest =>
    if ¬ isReSpace b0 ∧ ¬ isReSpace b1 then
      some (b0 :: b1 ::
        (match rest with
         | b2 :: _ => if ¬ isReSpace b2 then [b2] else []
         | [] => []))
    else findAbbrev (b1 :: rest)

/-- `abbrevSlice` in Geocode: the (0- or 1-element) result of
`FindStringSubmatch` — the pattern has no capture groups. -/
def abbrevSlice (n : ByteStr) : List ByteStr :=
  match findAbbrev n with
  | none => []
  | some a => [a]

/-- `bestMatchingKeys[k] = old + pts` (inserting when absent), the shape of
every score-map write in Geocode. -/
def scoreAdd : List (Nat × Nat) → Nat → Nat → List (Nat × Nat)
  | [], k, pts => [(k, pts)]
  | (k', v) :: rest, k, pts =>
    if k' = k then (k', v + pts) :: rest else (k', v) :: scoreAdd rest k pts

/-- Total points the scoring rules (geobed.go lines 573–670) add for the
scanned city `v` on this pass: abbreviation/region (+5), abbreviation/
country (+3), detected country (+4), detected region (+4), alternate-name
case-insensitive (+3) and case-sensitive (+5), exact city name (+7), token
substring (+2) and token equality (+1).  All additions target the same map
key, so their sum is the net map update. -/
def scoreCity (n : ByteStr) (nSlice : List ByteStr) (abbrevs : List ByteStr)
    (nCo nSt : ByteStr) (v : GeobedCity) : Nat :=
  (abbrevs.foldl
    (fun acc av =>
      let lowerAv := toLower av
      let acc := if av.length = 2 ∧ equalFold v.Region lowerAv then acc + 5 else acc
      if av.length = 2 ∧ equalFold v.Country lowerAv then acc + 3 else acc) 0) +
  (if nCo ≠ [] ∧ nCo = v.Country then 4 else 0) +
  (if nSt ≠ [] ∧ nSt = v.Region then 4 else 0) +
  (if v.CityAlt ≠ [] then
    (fields v.CityAlt).foldl
      (fun acc altV =>
        let acc := if equalFold altV n then acc + 3 else acc
        if altV = n then acc + 5 else acc) 0
   else 0) +
  (if equalFold n v.City then 7 else 0) +
  (nSlice.foldl
    (fun acc ns =>
      let ns := trimSuffix1 44 ns
      let acc := if containsSub (toLower ns) (toLower v.City) then acc + 2 else acc
      if equalFold v.City ns then acc + 1 else acc) 0)

/-- `g.c[f:t]`: a Go slice expression; `none` is the slice-bounds panic. -/
def goSlice (store : List GeobedCity) (f t : Int) : Option (List GeobedCity) :=
  if 0 ≤ f ∧ f ≤ t ∧ t ≤ (store.length : Int) then
    some ((store.take t.toNat).drop f.toNat)
  else none

/-- The inner scan of one candidate range: `currentKey` is incremented
before each city is scored (geobed.go line 546), and the
"City, Region" exact match returns the city immediately. -/
def scanRange (n : ByteStr) (nSlice : List ByteStr) (abbrevs : List ByteStr)
    (nCo nSt : ByteStr) :
    List (Nat × Nat) → Nat → List GeobedCity → GeobedCity ⊕ List (Nat × Nat)
  | m, _, [] => Sum.inr m
  | m, k, v :: rest =>
    let ck := k + 1
    if nSt ≠ [] ∧ equalFold n v.City ∧ equalFold nSt v.Region then Sum.inl v
    else
      let pts := scoreCity n nSlice abbrevs nCo nSt v
      scanRange n nSlice abbrevs nCo nSt
        (if pts = 0 then m else scoreAdd m ck pts) ck rest

/-- Scan all candidate ranges, accumulating `bestMatchingKeys`; `none` is a
slice-bounds panic, `inl` the early "City, Region" return. -/
def scanRanges (store : List GeobedCity) (n : ByteStr) (nSlice : List ByteStr)
    (abbrevs : List ByteStr) (nCo nSt : ByteStr) :
    List (Int × Int) → List (Nat × Nat) → Option (GeobedCity ⊕ List (Nat × Nat))
  | [], m => some (Sum.inr m)
  | (f, t) :: rs, m =>
    match goSlice store f t with
    | none => none
    | some cities =>
      match scanRange n nSlice abbrevs nCo nSt m f.toNat cities with
      | Sum.inl v => some (Sum.inl v)
      | Sum.inr m' => scanRanges store n nSlice abbrevs nCo nSt rs m'

/-- One step of the population adjustment loop (geobed.go lines 678–688),
processing score-map entries in iteration order: candidates with
population ≥ 1000 get +1, and the first position with the (strictly)
highest population so far is tracked as `hpk`.  `g.c[k]` reads are modelled
with a defaulted lookup; every key produced by a successful scan is within
range. -/
def adjStep (store : List GeobedCity) (st : List (Nat × Nat) × Int × Nat)
    (p : Nat × Nat) : List (Nat × Nat) × Int × Nat :=
  let pc := (store.getD p.1 emptyCity).Population
  let acc := st.1 ++ [if 1000 ≤ pc then (p.1, p.2 + 1) else p]
  if pc > st.2.1 then (acc, pc, p.1) else (acc, st.2.1, st.2.2)

/-- The whole population adjustment applied when no country was detected
(geobed.go lines 675–693), for entries processed in the given order: the
per-candidate loop, then `bestMatchingKeys[hpk]++` whenever position `hpk`
(initially 0) has positive population. -/
def popAdjust (store : List GeobedCity) (l : List (Nat × Nat)) : List (Nat × Nat) :=
  let r := l.foldl (adjStep store) ([], 0, 0)
  if (store.getD r.2.2 emptyCity).Population > 0 then scoreAdd r.1 r.2.2 1 else r.1

/-- One step of the winner-selection loop (geobed.go lines 696–709): take a
strictly higher score, and on an equal (current-maximum) score prefer the
strictly larger population. -/
def selStep (store : List GeobedCity) (st : Nat × Nat) (p : Nat × Nat) : Nat × Nat :=
  let m := if p.2 > st.1 then p.2 else st.1
  let b := if p.2 > st.1 then p.1 else st.2
  if p.2 = m then
    if (store.getD p.1 emptyCity).Population > (store.getD b emptyCity).Population
    then (m, p.1) else (m, b)
  else (m, b)

/-- `bestMatchingKey` after the selection loop over the given entry order
(`m` and `bestMatchingKey` start at 0). -/
def selectKey (store : List GeobedCity) (l : List (Nat × Nat)) : Nat :=
  (l.foldl (selStep store) (0, 0)).2

/-- Geocode's tail (geobed.go lines 674–722) on a score map processed in
the given entry order: population adjustment when no country was detected,
winner selection, and the final `g.c[bestMatchingKey]` read. -/
def geocodeFinish (store : List GeobedCity) (nCo : ByteStr)
    (l : List (Nat × Nat)) : GeobedCity :=
  let l' := if nCo = [] then popAdjust store l else l
  store.getD (selectKey store l') emptyCity

/-- Geocode after abbreviation extraction and country/state detection
(geobed.go lines 497–722): trim spaces/commas, tokenize on single spaces,
build the candidate ranges from the prefix index (skipping empty tokens),
scan and score, then finish.  `none` is a slice-bounds panic. -/
def geocodeMain (store : List GeobedCity) (idx : List (ByteStr × Nat))
    (n : ByteStr) (abbrevs : List ByteStr) (nCo nSt : ByteStr) :
    Option GeobedCity :=
  let n := trimCut [32, 44] n
  let nSlice := splitAll 32 n
  let ranges := nSlice.foldl
    (fun acc ns =>
      let ns := trimSuffix1 44 ns
      if 0 < ns.length then acc ++ [computeRange idx store.length ns] else acc) []
  match scanRanges store n nSlice abbrevs nCo nSt ranges [] with
  | none => none
  | some (Sum.inl v) => some v
  | some (Sum.inr m) => some (geocodeFinish store nCo m)

/-- `Geocode` (geobed.go lines 463–723).  `detect` abstracts the
regex-based country-name/US-state-code stripping passes (lines 476–495),
returning the stripped query and the detected `nCo`/`nSt`; every theorem
below quantifies over `detect`.  The trimmed-empty early return happens
before any of that. -/
def geocode (detect : ByteStr → ByteStr × ByteStr × ByteStr)
    (store : List GeobedCity) (idx : List (ByteStr × Nat)) (q : ByteStr) :
    Option GeobedCity :=
  let n := trimSpace q
  if n = [] then some emptyCity
  else
    let abbrevs := abbrevSlice n
    let (n', nCo, nSt) := detect n
    geocodeMain store idx n' abbrevs nCo nSt

/-!
## Reverse geocoding (`ReverseGeocode`)
-/

/-- The shared-prefix count of geobed.go lines 746–752 (run only when the
first two bytes already matched): `matched` starts at 2 and the loop
compares prefixes of length 2 through 12; the slice `v.Geohash[0:i]`
panics (`none`) when the stored geohash is shorter than 12 bytes. -/
def rgInner (gh vgh : ByteStr) : Option Nat :=
  if vgh.length < gh.length then none
  else some (2 + (List.range (gh.length - 1)).countP
    (fun j => decide (vgh.take (j + 2) = gh.take (j + 2))))

/-- One iteration of the ReverseGeocode scan (geobed.go lines 743–768).
`v.Geohash[0]` and (when the first byte matches) `v.Geohash[1]` are read
unconditionally — an out-of-range byte access (`none`) on short geohashes.
On a full match count, the population tie-break runs before the
strict-improvement update, exactly as in the source. -/
def rgStep (gh : ByteStr) (st : GeobedCity × Nat) (v : GeobedCity) :
    Option (GeobedCity × Nat) :=
  let c := st.1
  let most := st.2
  match v.Geohash.head? with
  | none => none
  | some b0 =>
    if b0 = gh.headD 0 then
      match v.Geohash.get? 1 with
      | none => none
      | some b1 =>
        if b1 = gh.getD 1 0 then
          match rgInner gh v.Geohash with
          | none => none
          | some matched =>
            let c' := if matched = most ∧ v.Population > c.Population then v else c
            some (if matched > most then (v, matched) else (c', most))
        else some (c, most)
    else some (c, most)

/-- `ReverseGeocode` (geobed.go lines 730–771): encode the point, return
the empty city on the sentinel geohash, otherwise scan every store entry.
`none` is a run-time panic during the scan. -/
def reverseGeocode (store : List GeobedCity) (lat lng : ℚ) :
    Option GeobedCity :=
  let gh := geohashEncode lat lng
  if gh = sentinelGeohash then some emptyCity
  else (store.foldlM (rgStep gh) (emptyCity, 0)).map Prod.fst

end Geobed

namespace Geobed

/-!
## Concrete inputs used by the theorems below
-/

/-- A 19-column Geonames row (18 tabs) whose name column is `name` and
whose latitude/longitude columns are `lat`/`lng`; all other columns empty
except a leading id `1`. -/
def geoRow (name lat lng : ByteStr) : ByteStr :=
  [49, 9] ++ name ++ [9, 9, 9] ++ lat ++ [9] ++ lng ++ List.replicate 13 9

/-- A Geonames row with city name `"x"` and unparseable coordinates
(`"abc"`, `"def"`): both default to 0, whose geohash is the sentinel, which
ingestion clears to the empty string. -/
def badGeonamesRow : ByteStr :=
  geoRow [120] [97, 98, 99] [100, 101, 102]

/-- Rows for three cities whose lowercase names are `"a"`,
`"\xC2\x85x"`, and `"\xC3\x81y"` (the latter two beginning with non-ASCII
bytes), with unparseable coordinates. -/
def ceRowA : ByteStr := geoRow [97] [] []

/-- Second row of the prefix-range counterexample store. -/
def ceRowB : ByteStr := geoRow [194, 133, 120] [] []

/-- Third row of the prefix-range counterexample store. -/
def ceRowC : ByteStr := geoRow [195, 129, 121] [] []

/-- A built store on which the prefix-range computation produces an
inverted range for a query token starting with byte `0x85`. -/
def ceStore : List GeobedCity := loadCities [ceRowA, ceRowB, ceRowC] []

/-- A two-city ASCII store (`"a"`, `"b"`) used as a range-computation
witness. -/
def asciiStore : List GeobedCity :=
  loadCities [geoRow [97] [] [], geoRow [98] [] []] []

/-- The query bytes of `"New York NY"`. -/
def queryNYNY : ByteStr := [78, 101, 119, 32, 89, 111, 114, 107, 32, 78, 89]

/-- A two-entry store: position 0 has population 50, position 1 has
population 0 (only position 1 will be a scored candidate). -/
def popStore : List GeobedCity :=
  [{ emptyCity with City := [97], CityLower := [97], Population := 50 },
   { emptyCity with City := [98], CityLower := [98], Population := 0 }]

/-- MaxMind 7-column row `"us,foo,foo,TX,100,1,2"`. -/
def mmRow1 : ByteStr :=
  [117, 115, 44, 102, 111, 111, 44, 102, 111, 111, 44, 84, 88, 44,
   49, 48, 48, 44, 49, 44, 50]

/-- MaxMind 7-column row `"ca,foo,foo,ON,200,3,4"`: same (lowercased) city
name as `mmRow1`, different dedupe key. -/
def mmRow2 : ByteStr :=
  [99, 97, 44, 102, 111, 111, 44, 102, 111, 111, 44, 79, 78, 44,
   50, 48, 48, 44, 51, 44, 52]

end Geobed

namespace Geobed

/-!
## Order theory of the store's sort key
-/

theorem goStrLt_irrefl (x : ByteStr) : goStrLt x x = false := by
  induction x with
  | nil => rfl
  | cons a as ih => simp [goStrLt, ih]

theorem goStrLt_trans : ∀ {x y z : ByteStr}, goStrLt x y = true →
    goStrLt y z = true → goStrLt x z = true := by
  intro x
  induction x with
  | nil =>
    intro y z hxy hyz
    cases y with
    | nil => simp [goStrLt] at hxy
    | cons b bs =>
      cases z with
      | nil => simp [goStrLt] at hyz
      | cons c cs => simp [goStrLt]
  | cons a as ih =>
    intro y z hxy hyz
    cases y with
    | nil => simp [goStrLt] at hxy
    | cons b bs =>
      cases z with
      | nil => simp [goStrLt] at hyz
      | cons c cs =>
        simp only [goStrLt] at hxy hyz ⊢
        rcases Nat.lt_trichotomy a b with h1 | h1 | h1
        · rcases Nat.lt_trichotomy b c with h2 | h2 | h2
          · rw [if_pos (Nat.lt_trans h1 h2)]
          · subst h2; rw [if_pos h1]
          · rw [if_neg (by omega), if_pos h2] at hyz; simp at hyz
        · subst h1
          rw [if_neg (by omega), if_neg (by omega)] at hxy
          rcases Nat.lt_trichotomy a c with h2 | h2 | h2
          · rw [if_pos h2]
          · subst h2
            rw [if_neg (by omega), if_neg (by omega)] at hyz ⊢
            exact ih hxy hyz
          · rw [if_neg (by omega), if_pos h2] at hyz; simp at hyz
        · rw [if_neg (by omega), if_pos h1] at hxy; simp at hxy

theorem goStrLt_connex : ∀ {x y : ByteStr}, goStrLt x y = false →
    goStrLt y x = false → x = y := by
  intro x
  induction x with
  | nil =>
    intro y hx _
    cases y with
    | nil => rfl
    | cons b bs => simp [goStrLt] at hx
  | cons a as ih =>
    intro y hx hy
    cases y with
    | nil => simp [goStrLt] at hy
    | cons b bs =>
      simp only [goStrLt] at hx hy
      rcases Nat.lt_trichotomy a b with h1 | h1 | h1
      · rw [if_pos h1] at hx; simp at hx
      · subst h1
        rw [if_neg (by omega), if_neg (by omega)] at hx hy
        rw [ih hx hy]
      · rw [if_pos h1] at hy; simp at hy

theorem goStrLt_cases (x y : ByteStr) :
    goStrLt x y = true ∨ goStrLt y x = true ∨ x = y := by
  cases h1 : goStrLt x y with
  | true => exact Or.inl rfl
  | false =>
    cases h2 : goStrLt y x with
    | true => exact Or.inr (Or.inl rfl)
    | false => exact Or.inr (Or.inr (goStrLt_connex h1 h2))

theorem goStrLt_asymm {x y : ByteStr} (h : goStrLt x y = true) :
    goStrLt y x = false := by
  cases h2 : goStrLt y x with
  | false => rfl
  | true => have := goStrLt_trans h h2; rw [goStrLt_irrefl] at this; exact this.symm

instance : IsTrans GeobedCity cityLe := by
  constructor
  intro a b c hab hbc
  show goStrLt c.CityLower a.CityLower = false
  cases hca : goStrLt c.CityLower a.CityLower with
  | false => rfl
  | true =>
    rcases goStrLt_cases c.CityLower b.CityLower with h | h | h
    · exact absurd h (by simpa [cityLe] using hbc)
    · have := goStrLt_trans h hca
      exact absurd this (by simpa [cityLe] using hab)
    · rw [h] at hca
      exact absurd hca (by simpa [cityLe] using hab)

instance : IsTotal GeobedCity cityLe := by
  constructor
  intro a b
  cases h : goStrLt b.CityLower a.CityLower with
  | false => exact Or.inl h
  | true => exact Or.inr (goStrLt_asymm h)

/-- Entries that come earlier in a `cityLe`-sorted list have
byte-wise-smaller-or-equal first name bytes. -/
theorem head_le_of_cityLe {a b : GeobedCity} (h : cityLe a b)
    (ha : a.CityLower ≠ []) (hb : b.CityLower ≠ []) :
    a.CityLower.headD 0 ≤ b.CityLower.headD 0 := by
  rcases ha' : a.CityLower with _ | ⟨x, xs⟩
  · exact absurd ha' ha
  · rcases hb' : b.CityLower with _ | ⟨y, ys⟩
    · exact absurd hb' hb
    · have hlt : goStrLt (y :: ys) (x :: xs) = false := by
        have := h; rw [cityLe, ha', hb'] at this; exact this
      simp only [goStrLt] at hlt
      rcases Nat.lt_trichotomy y x with h1 | h1 | h1
      · rw [if_pos h1] at hlt; simp at hlt
      · simp only [List.headD]; omega
      · simp only [List.headD]; omega

end Geobed

namespace Geobed

/-!
## Build invariants
-/

theorem toLower_ne_nil {s : ByteStr} (h : s ≠ []) : toLower s ≠ [] := by
  cases s with
  | nil => exact absurd rfl h
  | cons b bs => simp [toLower]

/-- Every city the Geonames pass appends has a nonempty name, and its
search key is the lowercased name. -/
theorem parseGeonamesLine_fields {t : ByteStr} {c : GeobedCity}
    (h : parseGeonamesLine t = some c) :
    c.City ≠ [] ∧ c.CityLower = toLower c.City := by
  simp only [parseGeonamesLine] at h
  split at h
  · split at h
    · rename_i hlen
      simp only [Option.some.injEq] at h
      subst h
      exact ⟨List.length_pos.mp hlen, rfl⟩
    · exact absurd h (by simp)
  · exact absurd h (by simp)

/-- Every city the MaxMind pass appends has a nonempty name, and its
search key is the lowercased name. -/
theorem maxmindCityOfFields_fields {fs : List ByteStr} {c : GeobedCity}
    (h : maxmindCityOfFields fs = some c) :
    c.City ≠ [] ∧ c.CityLower = toLower c.City := by
  simp only [maxmindCityOfFields] at h
  split at h
  · split at h
    · split at h
      · exact absurd h (by simp)
      · split at h
        · rename_i hlen
          simp only [Option.some.injEq] at h
          subst h
          exact ⟨List.length_pos.mp hlen, rfl⟩
        · exact absurd h (by simp)
    · exact absurd h (by simp)
  · exact absurd h (by simp)

/-- Build invariant: every stored entry has a nonempty display name and the
lowercased search key. -/
theorem mem_loadCities {geoLines : List ByteStr} {maxRows : List (List ByteStr)}
    {c : GeobedCity} (h : c ∈ loadCities geoLines maxRows) :
    c.City ≠ [] ∧ c.CityLower = toLower c.City := by
  unfold loadCities at h
  rw [List.mem_insertionSort] at h
  rcases List.mem_append.mp h with h | h
  · rcases List.mem_filterMap.mp h with ⟨t, _, ht⟩
    exact parseGeonamesLine_fields ht
  · rcases List.mem_filterMap.mp h with ⟨fs, _, hf⟩
    exact maxmindCityOfFields_fields hf

/-- The build always leaves the store sorted by the case-folded name. -/
theorem loadCities_sorted (geoLines : List ByteStr)
    (maxRows : List (List ByteStr)) :
    List.Sorted cityLe (loadCities geoLines maxRows) :=
  List.sorted_insertionSort cityLe _

/-!
## Prefix-index soundness
-/

theorem idxLookup_idxInsert {m : List (ByteStr × Nat)} {key0 key : ByteStr}
    {k0 k : Nat} (h : idxLookup (idxInsert m key0 k0) key = some k) :
    (key = key0 ∧ k = k0) ∨ idxLookup m key = some k := by
  induction m with
  | nil =>
    simp only [idxInsert, idxLookup] at h
    split at h
    · rename_i heq
      simp only [Option.some.injEq] at h
      exact Or.inl ⟨heq.symm, h.symm⟩
    · exact absurd h (by simp)
  | cons p rest ih =>
    rcases p with ⟨k', v⟩
    simp only [idxInsert] at h
    by_cases hk : k' = key0
    · rw [if_pos hk] at h
      subst hk
      by_cases hv : v < k0
      · rw [if_pos hv] at h
        simp only [idxLookup] at h ⊢
        by_cases hkey : k' = key
        · rw [if_pos hkey] at h
          simp only [Option.some.injEq] at h
          exact Or.inl ⟨hkey.symm, h.symm⟩
        · rw [if_neg hkey] at h ⊢
          exact Or.inr h
      · rw [if_neg hv] at h
        simp only [idxLookup] at h ⊢
        by_cases hkey : k' = key
        · rw [if_pos hkey] at h ⊢
          exact Or.inr h
        · rw [if_neg hkey] at h ⊢
          exact Or.inr h
    · rw [if_neg hk] at h
      simp only [idxLookup] at h ⊢
      by_cases hkey : k' = key
      · rw [if_pos hkey] at h ⊢
        exact Or.inr h
      · rw [if_neg hkey] at h ⊢
        rcases ih h with h' | h'
        · exact Or.inl h'
        · exact Or.inr h'

set_option maxRecDepth 2000 in
/-- Index soundness: every recorded position is a store position whose
entry generated the recorded key (as its 1-character key or its raw 2-byte
prefix). -/
theorem buildIdx_sound {store : List GeobedCity} {key : ByteStr} {k : Nat}
    (h : idxLookup (buildIdx store) key = some k) :
    ∃ v, store[k]? = some v ∧
      (key = cityKey1 v ∨ 2 ≤ v.CityLower.length ∧ key = v.CityLower.take 2) := by
  have main : ∀ (l : List (Nat × GeobedCity)) (m : List (ByteStr × Nat)),
      (∀ key' k', idxLookup m key' = some k' →
        ∃ v, store[k']? = some v ∧
          (key' = cityKey1 v ∨ 2 ≤ v.CityLower.length ∧ key' = v.CityLower.take 2)) →
      (∀ p ∈ l, store[p.1]? = some p.2) →
      ∀ key' k', idxLookup (l.foldl idxStep m) key' = some k' →
        ∃ v, store[k']? = some v ∧
          (key' = cityKey1 v ∨ 2 ≤ v.CityLower.length ∧ key' = v.CityLower.take 2) := by
    intro l
    induction l with
    | nil => intro m hm _ key' k' h'; exact hm _ _ h'
    | cons p rest ih =>
      intro m hm hl key' k' h'
      rw [List.foldl_cons] at h'
      refine ih (idxStep m p) ?_ (fun q hq => hl q (List.mem_cons_of_mem _ hq)) key' k' h'
      intro key2 k2 h2
      have hp : store[p.1]? = some p.2 := hl p (List.mem_cons_self _ _)
      simp only [idxStep] at h2
      by_cases hlen : 2 ≤ p.2.CityLower.length
      · rw [if_pos hlen] at h2
        rcases idxLookup_idxInsert h2 with ⟨rfl, rfl⟩ | h3
        · exact ⟨p.2, hp, Or.inr ⟨hlen, rfl⟩⟩
        · rcases idxLookup_idxInsert h3 with ⟨rfl, rfl⟩ | h4
          · exact ⟨p.2, hp, Or.inl rfl⟩
          · exact hm _ _ h4
      · rw [if_neg hlen] at h2
        rcases idxLookup_idxInsert h2 with ⟨rfl, rfl⟩ | h3
        · exact ⟨p.2, hp, Or.inl rfl⟩
        · exact hm _ _ h3
  unfold buildIdx at h
  refine main store.enum [] (fun key' k' h' => by simp [idxLookup] at h')
    (fun p hp => ?_) key k h
  exact List.mem_enum_iff_getElem?.mp hp

end Geobed

namespace Geobed

/-- C9: After every build (fresh ingestion of the Geonames feed and of the
deduplicated MaxMind rows in any iteration order, followed by the sort),
the city store is sorted ascending by the case-folded name field, every
stored entry has a non-empty display name (rows with an empty city name
are excluded during both ingestion passes), and the sort key is the
case-folded display name. -/
theorem build_sorted_and_names_nonempty (geoLines : List ByteStr)
    (maxRows : List (List ByteStr)) :
    List.Sorted cityLe (loadCities geoLines maxRows) ∧
    (∀ c ∈ loadCities geoLines maxRows,
      c.City ≠ [] ∧ c.CityLower = toLower c.City) :=
  ⟨loadCities_sorted geoLines maxRows, fun _ hc => mem_loadCities hc⟩

/-!
## Range-computation bounds (claim C2)
-/

theorem encodeRune_ofNat_lt {b : Nat} (h : b < 128) :
    encodeRune (b : Int) = [b] := by
  unfold encodeRune
  rw [if_neg (by omega), if_pos (by exact_mod_cast h)]
  simp

theorem encodeRune_singleton {r : Int} {c : Nat} (h : encodeRune r = [c]) :
    0 ≤ r ∧ r < 128 ∧ r.toNat = c := by
  unfold encodeRune at h
  split_ifs at h <;> simp_all

/-- A byte-valued code point never encodes to three bytes. -/
theorem encodeRune_byte_length {r : Int} (h0 : 0 ≤ r) (h : r < 256) :
    (encodeRune r).length ≤ 2 := by
  unfold encodeRune
  split_ifs <;> simp_all <;> omega

end Geobed

namespace Geobed

/-- A recorded position under a single-byte key pins down the first byte of
the entry's lowercased name. -/
theorem idxLookup_singleton_head {store : List GeobedCity} {lb k : Nat}
    (h : idxLookup (buildIdx store) [lb] = some k) :
    ∃ v, store[k]? = some v ∧ v.CityLower.headD 0 = lb ∧ lb < 128 := by
  obtain ⟨v, hv, hkey | ⟨hlen, hkey⟩⟩ := buildIdx_sound h
  · obtain ⟨h0, h128, htn⟩ := encodeRune_singleton hkey.symm
    have hE : v.CityLower.headD 0 = lb := by simpa using htn
    refine ⟨v, hv, hE, ?_⟩
    rw [← hE]
    exact_mod_cast h128
  · exfalso
    have hl2 : (v.CityLower.take 2).length = 2 := by
      rw [List.length_take]; omega
    rw [← hkey] at hl2
    simp at hl2

/-- No position is ever recorded under the 3-byte U+FFFD key (produced by
`prev` on a token whose lowercased first byte is 0), since all index keys
of a byte-valued store are at most two bytes. -/
theorem idxLookup_fffd_none {store : List GeobedCity}
    (hcl : ∀ v ∈ store, v.CityLower ≠ [])
    (hbytes : ∀ v ∈ store, ∀ b ∈ v.CityLower, b < 256) :
    idxLookup (buildIdx store) [239, 191, 189] = none := by
  cases h : idxLookup (buildIdx store) [239, 191, 189] with
  | none => rfl
  | some k =>
    exfalso
    obtain ⟨v, hv, hkey | ⟨hlen, hkey⟩⟩ := buildIdx_sound h
    · have hvmem : v ∈ store := List.getElem?_mem hv
      have hhead : v.CityLower.headD 0 < 256 := by
        rcases hcv : v.CityLower with _ | ⟨b, bs⟩
        · exact absurd hcv (hcl v hvmem)
        · have := hbytes v hvmem b (by rw [hcv]; exact List.mem_cons_self _ _)
          simp [hcv, this]
      have hlen2 : (encodeRune ((v.CityLower.headD 0 : Nat) : Int)).length ≤ 2 :=
        encodeRune_byte_length (by positivity) (by exact_mod_cast hhead)
      have hck : (cityKey1 v).length ≤ 2 := hlen2
      rw [← hkey] at hck
      simp at hck
    · have hl2 : (v.CityLower.take 2).length ≤ 2 := by
        rw [List.length_take]; omega
      rw [← hkey] at hl2
      simp at hl2

/-- In a sorted byte-valued store, a position recorded for first byte
`lb - 1` cannot come after a position recorded for first byte `lb`. -/
theorem idx_pos_le {store : List GeobedCity} {lb kf kt : Nat}
    (hs : List.Sorted cityLe store)
    (hcl : ∀ v ∈ store, v.CityLower ≠ [])
    (hlb : 1 ≤ lb)
    (hf : idxLookup (buildIdx store) [lb - 1] = some kf)
    (ht : idxLookup (buildIdx store) [lb] = some kt) :
    kf ≤ kt := by
  obtain ⟨vf, hvf, hheadf, _⟩ := idxLookup_singleton_head hf
  obtain ⟨vt, hvt, hheadt, _⟩ := idxLookup_singleton_head ht
  by_contra hlt
  push_neg at hlt
  obtain ⟨hkf, hgf⟩ := List.getElem?_eq_some.mp hvf
  obtain ⟨hkt, hgt⟩ := List.getElem?_eq_some.mp hvt
  have hrel : cityLe (store.get ⟨kt, hkt⟩) (store.get ⟨kf, hkf⟩) :=
    hs.rel_get_of_lt (by simpa using hlt)
  have hle : (store.get ⟨kt, hkt⟩).CityLower.headD 0 ≤
      (store.get ⟨kf, hkf⟩).CityLower.headD 0 := by
    apply head_le_of_cityLe hrel
    · exact hcl _ (List.get_mem store _ _)
    · exact hcl _ (List.get_mem store _ _)
  have hgf' : store.get ⟨kf, hkf⟩ = vf := by simpa [List.get_eq_getElem] using hgf
  have hgt' : store.get ⟨kt, hkt⟩ = vt := by simpa [List.get_eq_getElem] using hgt
  rw [hgf', hgt', hheadf, hheadt] at hle
  omega

end Geobed

namespace Geobed

/-- C2 (amended): for a built store (sorted, nonempty, byte-valued data
with nonempty search keys) and a query token whose first byte is ASCII,
the candidate range satisfies `0 ≤ start ≤ end ≤ len(store) - 1` — so the
slice scan `g.c[start:end]` is in bounds — and an unset (or zero) recorded
upper bound makes the end default to `len(store) - 1`, the last index,
not `len(store)`. -/
theorem geocode_range_inbounds
    (store : List GeobedCity) (ns : ByteStr)
    (hs : List.Sorted cityLe store)
    (hne : store ≠ [])
    (hcl : ∀ v ∈ store, v.CityLower ≠ [])
    (hbytes : ∀ v ∈ store, ∀ b ∈ v.CityLower, b < 256)
    (hns : ns.headD 0 < 128) :
    0 ≤ (computeRange (buildIdx store) store.length ns).1 ∧
    (computeRange (buildIdx store) store.length ns).1 ≤
      (computeRange (buildIdx store) store.length ns).2 ∧
    (computeRange (buildIdx store) store.length ns).2 ≤ (store.length : Int) - 1 ∧
    (goSlice store (computeRange (buildIdx store) store.length ns).1
      (computeRange (buildIdx store) store.length ns).2).isSome = true ∧
    (idxLookup (buildIdx store)
        (toLower (encodeRune ((ns.headD 0 : Nat) : Int))) = none →
      (computeRange (buildIdx store) store.length ns).2 = (store.length : Int) - 1) := by
  have hlen1 : 1 ≤ store.length := List.length_pos.mpr hne
  have hfc : encodeRune ((ns.headD 0 : Nat) : Int) = [ns.headD 0] :=
    encodeRune_ofNat_lt hns
  obtain ⟨lb, hlbdef⟩ : ∃ lb, (if 65 ≤ ns.headD 0 ∧ ns.headD 0 ≤ 90
      then ns.headD 0 + 32 else ns.headD 0) = lb := ⟨_, rfl⟩
  have hlow : toLower [ns.headD 0] = [lb] := by
    simp only [toLower, List.map_cons, List.map_nil]
    rw [hlbdef]
  have hlb128 : lb < 128 := by
    rw [← hlbdef]; split_ifs <;> omega
  have hshape : computeRange (buildIdx store) store.length ns =
      ((((idxLookup (buildIdx store) (encodeRune ((lb : Int) - 1))).getD 0 : Nat) : Int),
       if (((idxLookup (buildIdx store) [lb]).getD 0 : Nat) : Int) = 0
       then (store.length : Int) - 1
       else (((idxLookup (buildIdx store) [lb]).getD 0 : Nat) : Int)) := by
    simp only [computeRange]
    rw [hfc, hlow]
    simp only [List.headD_cons, prevRune]
  rw [hfc, hlow]
  have hfbound : ∀ kf, idxLookup (buildIdx store) (encodeRune ((lb : Int) - 1)) =
      some kf → kf < store.length := by
    intro kf hkf
    obtain ⟨v, hv, _⟩ := buildIdx_sound hkf
    exact (List.getElem?_eq_some.mp hv).1
  have htbound : ∀ kt, idxLookup (buildIdx store) [lb] = some kt →
      kt < store.length := by
    intro kt hkt
    obtain ⟨v, hv, _⟩ := buildIdx_sound hkt
    exact (List.getElem?_eq_some.mp hv).1
  have hft : ∀ kf kt, idxLookup (buildIdx store) (encodeRune ((lb : Int) - 1)) =
      some kf → idxLookup (buildIdx store) [lb] = some kt → kf ≤ kt := by
    intro kf kt hkf hkt
    by_cases hlb0 : 1 ≤ lb
    · have hcast : ((lb : Int) - 1) = ((lb - 1 : Nat) : Int) := by omega
      rw [hcast, encodeRune_ofNat_lt (by omega)] at hkf
      exact idx_pos_le hs hcl hlb0 hkf hkt
    · exfalso
      have hlb0' : lb = 0 := by omega
      subst hlb0'
      have hE : encodeRune (((0 : Nat) : Int) - 1) = [239, 191, 189] := by
        norm_num [encodeRune]
      rw [hE, idxLookup_fffd_none hcl hbytes] at hkf
      exact Option.noConfusion hkf
  rcases hF : idxLookup (buildIdx store) (encodeRune ((lb : Int) - 1)) with _ | kf <;>
    rcases hT : idxLookup (buildIdx store) [lb] with _ | kt
  · have hEq : computeRange (buildIdx store) store.length ns =
        (0, (store.length : Int) - 1) := by
      rw [hshape, hF, hT]; norm_num
    rw [hEq]
    refine ⟨le_refl 0, by omega, by omega, ?_, fun _ => rfl⟩
    have hg : goSlice store 0 ((store.length : Int) - 1) =
        some ((store.take ((store.length : Int) - 1).toNat).drop (0 : Int).toNat) := by
      unfold goSlice
      rw [if_pos ⟨le_refl 0, by omega, by omega⟩]
    rw [hg]; rfl
  · have hktb := htbound kt hT
    by_cases hkt0 : kt = 0
    · subst hkt0
      have hEq : computeRange (buildIdx store) store.length ns =
          (0, (store.length : Int) - 1) := by
        rw [hshape, hF, hT]; norm_num
      rw [hEq]
      refine ⟨le_refl 0, by omega, by omega, ?_, fun _ => rfl⟩
      have hg : goSlice store 0 ((store.length : Int) - 1) =
          some ((store.take ((store.length : Int) - 1).toNat).drop (0 : Int).toNat) := by
        unfold goSlice
        rw [if_pos ⟨le_refl 0, by omega, by omega⟩]
      rw [hg]; rfl
    · have hEq : computeRange (buildIdx store) store.length ns = (0, (kt : Int)) := by
        rw [hshape, hF, hT]
        simp only [Option.getD_some, Option.getD_none, Nat.cast_zero]
        rw [if_neg (by exact_mod_cast hkt0)]
      rw [hEq]
      refine ⟨le_refl 0, by omega, by omega, ?_, fun hc => ?_⟩
      · have hg : goSlice store 0 (kt : Int) =
            some ((store.take ((kt : Int)).toNat).drop (0 : Int).toNat) := by
          unfold goSlice
          rw [if_pos ⟨le_refl 0, by omega, by omega⟩]
        rw [hg]; rfl
      · exact absurd hc (by simp)
  · have hkfb := hfbound kf hF
    have hEq : computeRange (buildIdx store) store.length ns =
        ((kf : Int), (store.length : Int) - 1) := by
      rw [hshape, hF, hT]; norm_num
    rw [hEq]
    refine ⟨by omega, by omega, by omega, ?_, fun _ => rfl⟩
    have hg : goSlice store (kf : Int) ((store.length : Int) - 1) =
        some ((store.take ((store.length : Int) - 1).toNat).drop ((kf : Int)).toNat) := by
      unfold goSlice
      rw [if_pos ⟨by omega, by omega, by omega⟩]
    rw [hg]; rfl
  · have hkfb := hfbound kf hF
    have hktb := htbound kt hT
    have hle := hft kf kt hF hT
    by_cases hkt0 : kt = 0
    · subst hkt0
      have hEq : computeRange (buildIdx store) store.length ns =
          ((kf : Int), (store.length : Int) - 1) := by
        rw [hshape, hF, hT]; norm_num
      rw [hEq]
      refine ⟨by omega, by omega, by omega, ?_, fun _ => rfl⟩
      have hg : goSlice store (kf : Int) ((store.length : Int) - 1) =
          some ((store.take ((store.length : Int) - 1).toNat).drop ((kf : Int)).toNat) := by
        unfold goSlice
        rw [if_pos ⟨by omega, by omega, by omega⟩]
      rw [hg]; rfl
    · have hEq : computeRange (buildIdx store) store.length ns =
          ((kf : Int), (kt : Int)) := by
        rw [hshape, hF, hT]
        simp only [Option.getD_some]
        rw [if_neg (by exact_mod_cast hkt0)]
      rw [hEq]
      refine ⟨by omega, by omega, by omega, ?_, fun hc => ?_⟩
      · have hg : goSlice store (kf : Int) (kt : Int) =
            some ((store.take ((kt : Int)).toNat).drop ((kf : Int)).toNat) := by
          unfold goSlice
          rw [if_pos ⟨by omega, by omega, by omega⟩]
        rw [hg]; rfl
      · exact absurd hc (by simp)

end Geobed

namespace Geobed

/-- C2 counterexample: on the built store `ceStore` (three cities with
lowercase names `"a"`, `"\xC2\x85x"`, `"\xC3\x81y"`), the token starting
with byte `0x85` produces the range `(2, 1)` — start exceeds end and the
slice scan panics — and for the token `"b"`, whose prefix has no recorded
upper bound, the end defaults to `2 = len - 1`, not to the claimed
`len = 3`. -/
theorem geocode_range_counterexample :
    ceStore = loadCities [ceRowA, ceRowB, ceRowC] [] ∧
    computeRange (buildIdx ceStore) ceStore.length [133, 113] = (2, 1) ∧
    ¬ ((computeRange (buildIdx ceStore) ceStore.length [133, 113]).1 ≤
       (computeRange (buildIdx ceStore) ceStore.length [133, 113]).2) ∧
    goSlice ceStore (computeRange (buildIdx ceStore) ceStore.length [133, 113]).1
      (computeRange (buildIdx ceStore) ceStore.length [133, 113]).2 = none ∧
    idxLookup (buildIdx ceStore) [98] = none ∧
    computeRange (buildIdx ceStore) ceStore.length [98] = (0, 2) ∧
    (ceStore.length : Int) = 3 := by
  refine ⟨rfl, by decide, by decide, by decide, by decide, by decide, by decide⟩

/-- C2 witness: the amended bounds at a concrete built ASCII store and the
token `"b"`. -/
theorem geocode_range_inbounds_witness :
    0 ≤ (computeRange (buildIdx asciiStore) asciiStore.length [98]).1 ∧
    (computeRange (buildIdx asciiStore) asciiStore.length [98]).1 ≤
      (computeRange (buildIdx asciiStore) asciiStore.length [98]).2 ∧
    (computeRange (buildIdx asciiStore) asciiStore.length [98]).2 ≤
      (asciiStore.length : Int) - 1 ∧
    (goSlice asciiStore (computeRange (buildIdx asciiStore) asciiStore.length [98]).1
      (computeRange (buildIdx asciiStore) asciiStore.length [98]).2).isSome = true ∧
    (idxLookup (buildIdx asciiStore)
        (toLower (encodeRune ((([98] : ByteStr).headD 0 : Nat) : Int))) = none →
      (computeRange (buildIdx asciiStore) asciiStore.length [98]).2 =
        (asciiStore.length : Int) - 1) :=
  geocode_range_inbounds asciiStore [98] (by decide) (by decide) (by decide)
    (by decide) (by decide)

/-- C1: the code does NOT skip store entries whose geohash is empty.  A
single malformed Geonames row (unparseable coordinates default to 0, the
origin's sentinel geohash is cleared to the empty string) yields a built
store whose one entry has a nonempty name and an empty geohash; reverse
geocoding any point with a non-sentinel geohash then reads `v.Geohash[0]`
out of range — a run-time panic (`none`) instead of a normal `City`
return. -/
theorem reverseGeocode_empty_geohash_panics :
    (loadCities [badGeonamesRow] []).map (fun c => (c.City, c.Geohash)) =
      [([120], [])] ∧
    geohashEncode 30 (-97) ≠ sentinelGeohash ∧
    reverseGeocode (loadCities [badGeonamesRow] []) 30 (-97) = none := by
  refine ⟨by decide, by decide, by decide⟩

/-- C4: `FindStringSubmatch` returns only the single leftmost match of
`[\S]{2,3}`, so on `"New York NY"` the extracted abbreviation set is
exactly `["New"]`: the run `"NY"` (the last two bytes, both non-space) is
a 2-character contiguous non-space token of the query that is NOT
extracted, contradicting the claim (and the source's own comment
"Extract all potential abbreviations"). -/
theorem abbrev_extraction_only_leftmost :
    abbrevSlice queryNYNY = [[78, 101, 119]] ∧
    queryNYNY.drop 9 = [78, 89] ∧
    ¬ isReSpace 78 ∧ ¬ isReSpace 89 ∧
    [78, 89] ∉ abbrevSlice queryNYNY := by
  refine ⟨by decide, by decide, by decide, by decide, by decide⟩

end Geobed

namespace Geobed

/-- Case analysis of one selection-loop step. -/
theorem selStep_cases (store : List GeobedCity) (st p : Nat × Nat) :
    (p.2 > st.1 ∧ selStep store st p = (p.2, p.1)) ∨
    (¬ p.2 > st.1 ∧ p.2 = st.1 ∧
      (store.getD p.1 emptyCity).Population >
        (store.getD st.2 emptyCity).Population ∧
      selStep store st p = (st.1, p.1)) ∨
    (¬ p.2 > st.1 ∧ p.2 = st.1 ∧
      ¬ ((store.getD p.1 emptyCity).Population >
        (store.getD st.2 emptyCity).Population) ∧
      selStep store st p = st) ∨
    (¬ p.2 > st.1 ∧ p.2 ≠ st.1 ∧ selStep store st p = st) := by
  rcases st with ⟨m, bk⟩
  by_cases h1 : p.2 > m
  · refine Or.inl ⟨h1, ?_⟩
    simp only [selStep]
    rw [if_pos h1, if_pos h1, if_pos rfl, if_neg (lt_irrefl _)]
  · by_cases h2 : p.2 = m
    · by_cases h3 : (store.getD p.1 emptyCity).Population >
          (store.getD bk emptyCity).Population
      · refine Or.inr (Or.inl ⟨h1, h2, h3, ?_⟩)
        simp only [selStep]
        rw [if_neg h1, if_neg h1, if_pos h2, if_pos h3]
      · refine Or.inr (Or.inr (Or.inl ⟨h1, h2, h3, ?_⟩))
        simp only [selStep]
        rw [if_neg h1, if_neg h1, if_pos h2, if_neg h3]
    · refine Or.inr (Or.inr (Or.inr ⟨h1, h2, ?_⟩))
      simp only [selStep]
      rw [if_neg h1, if_neg h1, if_neg h2]

/-- C3: over any iteration order of the (nonempty, positively scored)
candidate map, the selection loop returns a candidate position holding the
maximal accumulated score whose population is maximal among the
maximal-score candidates; in particular, when exactly two candidate
positions hold the top score and one has strictly greater population, that
one is selected.  (`Geocode` then returns `g.c[bestMatchingKey]` for the
selected position.) -/
theorem selection_best_key (store : List GeobedCity) (l : List (Nat × Nat))
    (hne : l ≠ []) (hpos : ∀ p ∈ l, 1 ≤ p.2) :
    (((l.foldl (selStep store) (0, 0)).2, (l.foldl (selStep store) (0, 0)).1) ∈ l ∧
      (∀ p ∈ l, p.2 ≤ (l.foldl (selStep store) (0, 0)).1) ∧
      (∀ p ∈ l, p.2 = (l.foldl (selStep store) (0, 0)).1 →
        (store.getD p.1 emptyCity).Population ≤
          (store.getD (selectKey store l) emptyCity).Population)) ∧
    (∀ a b : Nat, (a, (l.foldl (selStep store) (0, 0)).1) ∈ l →
      (b, (l.foldl (selStep store) (0, 0)).1) ∈ l →
      (store.getD b emptyCity).Population <
        (store.getD a emptyCity).Population →
      (∀ p ∈ l, p.2 = (l.foldl (selStep store) (0, 0)).1 → p.1 = a ∨ p.1 = b) →
      selectKey store l = a) := by
  have main : ∀ (l' P : List (Nat × Nat)) (st : Nat × Nat),
      (∀ p ∈ l', 1 ≤ p.2) →
      ((P = [] ∧ st = (0, 0)) ∨
        ((st.2, st.1) ∈ P ∧ (∀ p ∈ P, p.2 ≤ st.1) ∧
          (∀ p ∈ P, p.2 = st.1 →
            (store.getD p.1 emptyCity).Population ≤
              (store.getD st.2 emptyCity).Population))) →
      ((P ++ l' = [] ∧ l'.foldl (selStep store) st = (0, 0)) ∨
        (((l'.foldl (selStep store) st).2, (l'.foldl (selStep store) st).1) ∈ P ++ l' ∧
          (∀ p ∈ P ++ l', p.2 ≤ (l'.foldl (selStep store) st).1) ∧
          (∀ p ∈ P ++ l', p.2 = (l'.foldl (selStep store) st).1 →
            (store.getD p.1 emptyCity).Population ≤
              (store.getD (l'.foldl (selStep store) st).2 emptyCity).Population))) := by
    intro l'
    induction l' with
    | nil =>
      intro P st _ hinv
      simp only [List.foldl_nil, List.append_nil]
      rcases hinv with ⟨hP, hst⟩ | hinv
      · exact Or.inl ⟨hP, hst⟩
      · exact Or.inr hinv
    | cons p rest ih =>
      intro P st hpos' hinv
      rw [List.foldl_cons]
      have happ : P ++ p :: rest = (P ++ [p]) ++ rest := by simp
      rw [happ]
      apply ih (P ++ [p]) (selStep store st p)
        (fun q hq => hpos' q (List.mem_cons_of_mem _ hq))
      right
      have hp1 : 1 ≤ p.2 := hpos' p (List.mem_cons_self _ _)
      rcases hinv with ⟨hP, hst⟩ | ⟨hmem, hbound, htop⟩
      · subst hP; subst hst
        rcases selStep_cases store (0, 0) p with ⟨h1, hstep⟩ | ⟨h1, _, _, _⟩ |
            ⟨h1, _, _, _⟩ | ⟨h1, _, _⟩
        · rw [hstep]
          refine ⟨by simp, ?_, ?_⟩
          · intro q hq
            simp only [List.nil_append, List.mem_singleton] at hq
            subst hq; exact le_refl _
          · intro q hq _
            simp only [List.nil_append, List.mem_singleton] at hq
            subst hq; exact le_refl _
        all_goals exact absurd (by omega : p.2 > (0 : Nat)) h1
      · rcases selStep_cases store st p with ⟨h1, hstep⟩ | ⟨h1, h2, h3, hstep⟩ |
            ⟨h1, h2, h3, hstep⟩ | ⟨h1, h2, hstep⟩
        · rw [hstep]
          refine ⟨by simp, ?_, ?_⟩
          · intro q hq
            rcases List.mem_append.mp hq with hq | hq
            · have := hbound q hq; omega
            · simp only [List.mem_singleton] at hq; subst hq; exact le_refl _
          · intro q hq hqv
            rcases List.mem_append.mp hq with hq | hq
            · have := hbound q hq; omega
            · simp only [List.mem_singleton] at hq; subst hq; exact le_refl _
        · rw [hstep]
          refine ⟨?_, ?_, ?_⟩
          · apply List.mem_append.mpr
            right
            simp only [List.mem_singleton]
            rw [← h2]
          · intro q hq
            rcases List.mem_append.mp hq with hq | hq
            · exact hbound q hq
            · simp only [List.mem_singleton] at hq; subst hq; omega
          · intro q hq hqv
            rcases List.mem_append.mp hq with hq | hq
            · have h5 := htop q hq hqv
              have h4 : ((st.1, p.1).2 : Nat) = p.1 := rfl
              rw [h4]
              omega
            · simp only [List.mem_singleton] at hq; subst hq; exact le_refl _
        · rw [hstep]
          refine ⟨List.mem_append.mpr (Or.inl hmem), ?_, ?_⟩
          · intro q hq
            rcases List.mem_append.mp hq with hq | hq
            · exact hbound q hq
            · simp only [List.mem_singleton] at hq; subst hq; omega
          · intro q hq hqv
            rcases List.mem_append.mp hq with hq | hq
            · exact htop q hq hqv
            · simp only [List.mem_singleton] at hq; subst hq; omega
        · rw [hstep]
          refine ⟨List.mem_append.mpr (Or.inl hmem), ?_, ?_⟩
          · intro q hq
            rcases List.mem_append.mp hq with hq | hq
            · exact hbound q hq
            · simp only [List.mem_singleton] at hq; subst hq; omega
          · intro q hq hqv
            rcases List.mem_append.mp hq with hq | hq
            · exact htop q hq hqv
            · simp only [List.mem_singleton] at hq; subst hq
              exact absurd hqv h2
  have hres := main l [] (0, 0) hpos (Or.inl ⟨rfl, rfl⟩)
  simp only [List.nil_append] at hres
  rcases hres with ⟨hl, _⟩ | ⟨hmem, hbound, htop⟩
  · exact absurd hl hne
  · refine ⟨⟨hmem, hbound, htop⟩, ?_⟩
    intro a b ha hb hab htops
    rcases htops _ hmem rfl with h | h
    · exact h
    · exfalso
      have h3 : (store.getD a emptyCity).Population ≤
          (store.getD (l.foldl (selStep store) (0, 0)).2 emptyCity).Population :=
        htop (a, (l.foldl (selStep store) (0, 0)).1) ha rfl
      have hb2 : (l.foldl (selStep store) (0, 0)).2 = b := h
      rw [hb2] at h3
      omega
end Geobed

namespace Geobed

/-- One adjustment step, with the branch structure lifted out. -/
theorem adjStep_eq (store : List GeobedCity) (acc : List (Nat × Nat))
    (hp : Int) (hpk : Nat) (p : Nat × Nat) :
    adjStep store (acc, hp, hpk) p =
      if (store.getD p.1 emptyCity).Population > hp
      then (acc ++ [if 1000 ≤ (store.getD p.1 emptyCity).Population
              then (p.1, p.2 + 1) else p],
            (store.getD p.1 emptyCity).Population, p.1)
      else (acc ++ [if 1000 ≤ (store.getD p.1 emptyCity).Population
              then (p.1, p.2 + 1) else p], hp, hpk) := rfl

/-- The adjustment loop rewrites the map entries in place: candidates with
population at least 1000 gain one point, everything else is untouched. -/
theorem adjLoop_fst (store : List GeobedCity) :
    ∀ (l acc : List (Nat × Nat)) (hp : Int) (hpk : Nat),
    (l.foldl (adjStep store) (acc, hp, hpk)).1 =
      acc ++ l.map (fun p =>
        if 1000 ≤ (store.getD p.1 emptyCity).Population
        then (p.1, p.2 + 1) else p) := by
  intro l
  induction l with
  | nil => intro acc hp hpk; simp
  | cons p rest ih =>
    intro acc hp hpk
    rw [List.foldl_cons, adjStep_eq]
    by_cases h : (store.getD p.1 emptyCity).Population > hp
    · rw [if_pos h, ih]
      simp
    · rw [if_neg h, ih]
      simp

/-- The highest-population tracking of the adjustment loop: either no
processed entry has positive population (and `hp`/`hpk` still hold their
zero initializers), or `hpk` is a processed candidate position of maximal,
positive population. -/
theorem adjLoop_snd (store : List GeobedCity) :
    ∀ (l P acc : List (Nat × Nat)) (hp : Int) (hpk : Nat),
    ((hp = 0 ∧ hpk = 0 ∧
        ∀ p ∈ P, (store.getD p.1 emptyCity).Population ≤ 0) ∨
      (0 < hp ∧ hpk ∈ P.map Prod.fst ∧
        (store.getD hpk emptyCity).Population = hp ∧
        ∀ p ∈ P, (store.getD p.1 emptyCity).Population ≤ hp)) →
    (((l.foldl (adjStep store) (acc, hp, hpk)).2.1 = 0 ∧
        (l.foldl (adjStep store) (acc, hp, hpk)).2.2 = 0 ∧
        ∀ p ∈ P ++ l, (store.getD p.1 emptyCity).Population ≤ 0) ∨
      (0 < (l.foldl (adjStep store) (acc, hp, hpk)).2.1 ∧
        (l.foldl (adjStep store) (acc, hp, hpk)).2.2 ∈ (P ++ l).map Prod.fst ∧
        (store.getD (l.foldl (adjStep store) (acc, hp, hpk)).2.2
          emptyCity).Population = (l.foldl (adjStep store) (acc, hp, hpk)).2.1 ∧
        ∀ p ∈ P ++ l, (store.getD p.1 emptyCity).Population ≤
          (l.foldl (adjStep store) (acc, hp, hpk)).2.1)) := by
  intro l
  induction l with
  | nil =>
    intro P acc hp hpk hinv
    simp only [List.foldl_nil, List.append_nil]
    exact hinv
  | cons p rest ih =>
    intro P acc hp hpk hinv
    rw [List.foldl_cons, adjStep_eq]
    have happ : P ++ p :: rest = (P ++ [p]) ++ rest := by simp
    rw [happ]
    by_cases h : (store.getD p.1 emptyCity).Population > hp
    · rw [if_pos h]
      apply ih
      right
      have hp0 : 0 ≤ hp := by
        rcases hinv with ⟨h1, _, _⟩ | ⟨h1, _⟩
        · omega
        · omega
      refine ⟨by omega, ?_, rfl, ?_⟩
      · simp
      · intro q hq
        rcases List.mem_append.mp hq with hq | hq
        · rcases hinv with ⟨_, _, hb⟩ | ⟨_, _, _, hb⟩
          · have := hb q hq; omega
          · have := hb q hq; omega
        · simp only [List.mem_singleton] at hq; subst hq; exact le_refl _
    · rw [if_neg h]
      apply ih
      rcases hinv with ⟨h1, h2, hb⟩ | ⟨h1, h2, h3, hb⟩
      · left
        refine ⟨h1, h2, ?_⟩
        intro q hq
        rcases List.mem_append.mp hq with hq | hq
        · exact hb q hq
        · simp only [List.mem_singleton] at hq; subst hq; omega
      · right
        refine ⟨h1, by simp [h2], h3, ?_⟩
        intro q hq
        rcases List.mem_append.mp hq with hq | hq
        · exact hb q hq
        · simp only [List.mem_singleton] at hq; subst hq; omega

/-- `bestMatchingKeys[k] += pts` on a map whose key is present and unique:
the in-place update of that single entry. -/
theorem scoreAdd_of_nodup {l : List (Nat × Nat)} {k : Nat} (pts : Nat)
    (hnd : (l.map Prod.fst).Nodup) (hk : k ∈ l.map Prod.fst) :
    scoreAdd l k pts =
      l.map (fun q => if q.1 = k then (q.1, q.2 + pts) else q) := by
  induction l with
  | nil => simp at hk
  | cons p rest ih =>
    rcases p with ⟨k', v⟩
    simp only [List.map_cons, List.nodup_cons] at hnd
    rcases hnd with ⟨hp, hnd⟩
    by_cases hk' : k' = k
    · subst hk'
      simp only [scoreAdd, List.map_cons, if_true]
      congr 1
      have hpt : ∀ q ∈ rest, (fun q : Nat × Nat =>
          if q.1 = k' then (q.1, q.2 + pts) else q) q = q := by
        intro q hq
        have : q.1 ≠ k' := by
          intro hq1
          exact hp (hq1 ▸ List.mem_map_of_mem Prod.fst hq)
        simp [this]
      rw [List.map_congr_left hpt, List.map_id']
    · simp only [scoreAdd, if_neg hk', List.map_cons]
      have hkr : k ∈ rest.map Prod.fst := by
        rcases List.mem_cons.mp hk with h | h
        · exact absurd h.symm hk'
        · exact h
      rw [ih hnd hkr]

/-- C5 (amended): when at least one enumerated candidate has positive
population (and candidate keys are distinct, as they are for a Go map),
the no-country population adjustment adds exactly +1 to every candidate
with population ≥ 1000 and a further +1 to exactly one candidate position
`hpk` holding the maximal population among the candidates — and modifies
no position that was not an enumerated candidate. -/
theorem popAdjust_amended (store : List GeobedCity) (l : List (Nat × Nat))
    (hnd : (l.map Prod.fst).Nodup)
    (hpos : ∃ p ∈ l, 0 < (store.getD p.1 emptyCity).Population) :
    ∃ hpk, hpk ∈ l.map Prod.fst ∧
      (∀ p ∈ l, (store.getD p.1 emptyCity).Population ≤
        (store.getD hpk emptyCity).Population) ∧
      popAdjust store l = l.map (fun p =>
        (p.1, p.2 +
          (if 1000 ≤ (store.getD p.1 emptyCity).Population then 1 else 0) +
          (if p.1 = hpk then 1 else 0))) := by
  have hfst := adjLoop_fst store l [] 0 0
  have hsnd := adjLoop_snd store l [] [] 0 0 (Or.inl ⟨rfl, rfl, by simp⟩)
  simp only [List.nil_append] at hfst hsnd
  rcases hsnd with ⟨h1, h2, hb⟩ | ⟨h1, h2, h3, hb⟩
  · exfalso
    obtain ⟨p, hpmem, hppos⟩ := hpos
    have := hb p hpmem
    omega
  · refine ⟨(l.foldl (adjStep store) ([], 0, 0)).2.2, h2, ?_, ?_⟩
    · intro p hp
      rw [h3]
      exact hb p hp
    · simp only [popAdjust]
      rw [if_pos (by rw [h3]; exact h1), hfst]
      have hkeys : (l.map (fun p : Nat × Nat =>
          if 1000 ≤ (store.getD p.1 emptyCity).Population
          then (p.1, p.2 + 1) else p)).map Prod.fst = l.map Prod.fst := by
        rw [List.map_map]
        apply List.map_congr_left
        intro p _
        rcases p with ⟨pk, pv⟩
        simp only [Function.comp_apply]
        by_cases h : 1000 ≤ (store.getD pk emptyCity).Population
        · rw [if_pos h]
        · rw [if_neg h]
      rw [scoreAdd_of_nodup 1 (by rw [hkeys]; exact hnd) (by rw [hkeys]; exact h2)]
      rw [List.map_map]
      apply List.map_congr_left
      intro p _
      rcases p with ⟨pk, pv⟩
      simp only [Function.comp_apply]
      by_cases hb1 : 1000 ≤ (store.getD pk emptyCity).Population
      · rw [if_pos hb1]
        dsimp only
        by_cases hb2 : pk = (l.foldl (adjStep store) ([], 0, 0)).2.2
        · rw [if_pos hb2, if_pos hb2, if_pos hb1]
        · rw [if_neg hb2, if_neg hb2, if_pos hb1]
      · rw [if_neg hb1]
        dsimp only
        by_cases hb2 : pk = (l.foldl (adjStep store) ([], 0, 0)).2.2
        · rw [if_pos hb2, if_pos hb2, if_neg hb1]
        · rw [if_neg hb2, if_neg hb2, if_neg hb1]
          rfl

end Geobed

namespace Geobed

/-- C3 witness: the selection properties at a concrete store and candidate
list with a score tie broken by population. -/
theorem selection_best_key_witness :
    (((([(1, 2), (0, 2)] : List (Nat × Nat)).foldl (selStep popStore) (0, 0)).2,
        (([(1, 2), (0, 2)] : List (Nat × Nat)).foldl (selStep popStore) (0, 0)).1) ∈
        ([(1, 2), (0, 2)] : List (Nat × Nat)) ∧
      (∀ p ∈ ([(1, 2), (0, 2)] : List (Nat × Nat)),
        p.2 ≤ (([(1, 2), (0, 2)] : List (Nat × Nat)).foldl (selStep popStore) (0, 0)).1) ∧
      (∀ p ∈ ([(1, 2), (0, 2)] : List (Nat × Nat)),
        p.2 = (([(1, 2), (0, 2)] : List (Nat × Nat)).foldl (selStep popStore) (0, 0)).1 →
        (popStore.getD p.1 emptyCity).Population ≤
          (popStore.getD (selectKey popStore [(1, 2), (0, 2)]) emptyCity).Population)) ∧
    (∀ a b : Nat,
      (a, (([(1, 2), (0, 2)] : List (Nat × Nat)).foldl (selStep popStore) (0, 0)).1) ∈
        ([(1, 2), (0, 2)] : List (Nat × Nat)) →
      (b, (([(1, 2), (0, 2)] : List (Nat × Nat)).foldl (selStep popStore) (0, 0)).1) ∈
        ([(1, 2), (0, 2)] : List (Nat × Nat)) →
      (popStore.getD b emptyCity).Population <
        (popStore.getD a emptyCity).Population →
      (∀ p ∈ ([(1, 2), (0, 2)] : List (Nat × Nat)),
        p.2 = (([(1, 2), (0, 2)] : List (Nat × Nat)).foldl (selStep popStore) (0, 0)).1 →
        p.1 = a ∨ p.1 = b) →
      selectKey popStore [(1, 2), (0, 2)] = a) :=
  selection_best_key popStore [(1, 2), (0, 2)] (by decide) (by decide)

/-- C5 counterexample: with one scored candidate (position 1, population
0) and a first store entry of positive population, the adjustment bumps
position 0 — which was NOT an enumerated candidate — refuting the claim
that no non-candidate position is modified. -/
theorem popAdjust_counterexample :
    popAdjust popStore [(1, 3)] = [(1, 3), (0, 1)] ∧
    (0 : Nat) ∉ ([(1, 3)] : List (Nat × Nat)).map Prod.fst ∧
    (popStore.getD 1 emptyCity).Population = 0 ∧
    (popStore.getD 0 emptyCity).Population = 50 := by
  refine ⟨by decide, by decide, by decide, by decide⟩

/-- C5 witness: the amended adjustment at a concrete candidate list whose
single candidate has positive population. -/
theorem popAdjust_amended_witness :
    ∃ hpk, hpk ∈ ([(0, 2)] : List (Nat × Nat)).map Prod.fst ∧
      (∀ p ∈ ([(0, 2)] : List (Nat × Nat)),
        (popStore.getD p.1 emptyCity).Population ≤
          (popStore.getD hpk emptyCity).Population) ∧
      popAdjust popStore [(0, 2)] = ([(0, 2)] : List (Nat × Nat)).map (fun p =>
        (p.1, p.2 +
          (if 1000 ≤ (popStore.getD p.1 emptyCity).Population then 1 else 0) +
          (if p.1 = hpk then 1 else 0))) :=
  popAdjust_amended popStore [(0, 2)] (by decide) ⟨(0, 2), by decide, by decide⟩

/-- C10: when the scan produced no scored candidate at all, Geocode's tail
returns the store's position-0 (alphabetically first) city — not the
sentinel empty `City` — for every detected-country value and every
nonempty built store. -/
theorem geocode_empty_candidates_first_city (store : List GeobedCity)
    (nCo : ByteStr) (hne : store ≠ []) (hname : ∀ v ∈ store, v.City ≠ []) :
    geocodeFinish store nCo [] = store.getD 0 emptyCity ∧
    geocodeFinish store nCo [] ≠ emptyCity := by
  have hsel0 : selectKey store [] = 0 := rfl
  have hsel1 : selectKey store [(0, 1)] = 0 := by
    rcases selStep_cases store (0, 0) (0, 1) with ⟨_, hstep⟩ | ⟨h1, _⟩ |
        ⟨h1, _⟩ | ⟨h1, _⟩
    · show (([(0, 1)] : List (Nat × Nat)).foldl (selStep store) (0, 0)).2 = 0
      rw [List.foldl_cons, List.foldl_nil, hstep]
    · exact absurd (by decide) h1
    · exact absurd (by decide) h1
    · exact absurd (by decide) h1
  have hmain : geocodeFinish store nCo [] = store.getD 0 emptyCity := by
    simp only [geocodeFinish]
    by_cases hc : nCo = []
    · rw [if_pos hc]
      have hadj : popAdjust store [] =
          if (store.getD 0 emptyCity).Population > 0 then [(0, 1)] else [] := rfl
      rw [hadj]
      by_cases hpop : (store.getD 0 emptyCity).Population > 0
      · rw [if_pos hpop, hsel1]
      · rw [if_neg hpop, hsel0]
    · rw [if_neg hc, hsel0]
  refine ⟨hmain, ?_⟩
  rw [hmain]
  rcases store with _ | ⟨v, rest⟩
  · exact absurd rfl hne
  · intro heq
    simp only [List.getD_cons_zero] at heq
    exact hname v (List.mem_cons_self _ _) (by rw [heq]; rfl)

/-- C10 witness: the first-city fallback at a concrete store. -/
theorem geocode_empty_candidates_first_city_witness :
    geocodeFinish popStore [] [] = popStore.getD 0 emptyCity ∧
    geocodeFinish popStore [] [] ≠ emptyCity :=
  geocode_empty_candidates_first_city popStore [] (by decide) (by decide)

end Geobed

namespace Geobed

/-- C8: encoding the origin yields the degenerate sentinel geohash
`"7zzzzzzzzzzz"`, and for every (lat, lng) whose 12-character encoding is
that sentinel — in particular (0, 0) — ReverseGeocode returns the sentinel
empty City immediately, for every store, without scanning it. -/
theorem reverseGeocode_sentinel (store : List GeobedCity) (lat lng : ℚ)
    (h : geohashEncode lat lng = sentinelGeohash) :
    geohashEncode 0 0 = sentinelGeohash ∧
    reverseGeocode store lat lng = some emptyCity := by
  refine ⟨by decide, ?_⟩
  simp only [reverseGeocode]
  rw [if_pos h]

/-- C8 witness: the sentinel early return at the origin point itself. -/
theorem reverseGeocode_sentinel_witness :
    geohashEncode 0 0 = sentinelGeohash ∧
    reverseGeocode [] 0 0 = some emptyCity :=
  reverseGeocode_sentinel [] 0 0 (by decide)

/-- The combined city list is permutation-invariant in the MaxMind
iteration order. -/
theorem loadCities_perm (geoLines : List ByteStr)
    {m1 m2 : List (List ByteStr)} (h : m1.Perm m2) :
    (loadCities geoLines m1).Perm (loadCities geoLines m2) := by
  unfold loadCities
  have h1 := List.perm_insertionSort cityLe
    (geoLines.filterMap parseGeonamesLine ++ m1.filterMap maxmindCityOfFields)
  have h2 := List.perm_insertionSort cityLe
    (geoLines.filterMap parseGeonamesLine ++ m2.filterMap maxmindCityOfFields)
  exact h1.trans ((List.Perm.append_left _ (h.filterMap _)).trans h2.symm)

/-- Two sorted permutations of the same records coincide when their sort
keys are pairwise distinct. -/
theorem sorted_nodup_eq : ∀ {l₁ l₂ : List GeobedCity}, l₁.Perm l₂ →
    List.Sorted cityLe l₁ → List.Sorted cityLe l₂ →
    (l₁.map (fun c => c.CityLower)).Nodup → l₁ = l₂ := by
  intro l₁
  induction l₁ with
  | nil =>
    intro l₂ hp _ _ _
    exact (List.Perm.nil_eq hp)
  | cons a t ih =>
    intro l₂ hp hs₁ hs₂ hnd
    rcases l₂ with _ | ⟨b, t₂⟩
    · have := hp.length_eq; simp at this
    · by_cases hab : a = b
      · subst hab
        have ht := hp.cons_inv
        simp only [List.map_cons, List.nodup_cons] at hnd
        rw [ih ht hs₁.of_cons hs₂.of_cons hnd.2]
      · exfalso
        have hbm : b ∈ a :: t := hp.mem_iff.mpr (List.mem_cons_self b t₂)
        have ham : a ∈ b :: t₂ := hp.mem_iff.mp (List.mem_cons_self a t)
        have hbt : b ∈ t := by
          rcases List.mem_cons.mp hbm with h | h
          · exact absurd h.symm hab
          · exact h
        have hat : a ∈ t₂ := by
          rcases List.mem_cons.mp ham with h | h
          · exact absurd h hab
          · exact h
        have h1 : cityLe a b := List.rel_of_sorted_cons hs₁ b hbt
        have h2 : cityLe b a := List.rel_of_sorted_cons hs₂ a hat
        have heq : b.CityLower = a.CityLower := goStrLt_connex h1 h2
        simp only [List.map_cons, List.nodup_cons] at hnd
        exact hnd.1 (heq ▸ List.mem_map_of_mem _ hbt)

/-- C6 (amended): two rebuilds from identical raw input always produce
sorted stores that are permutations of each other, and the stores are
identical whenever all case-folded names are pairwise distinct; records
with equal case-folded names carry no ordering guarantee across rebuilds
(the MaxMind dedupe map's iteration order is unspecified and `sort.Sort`
is not stable). -/
theorem build_deterministic_amended (geoLines maxLines : List ByteStr)
    (it1 it2 : List (List ByteStr))
    (h1 : ValidIteration maxLines it1) (h2 : ValidIteration maxLines it2) :
    (loadCities geoLines it1).Perm (loadCities geoLines it2) ∧
    List.Sorted cityLe (loadCities geoLines it1) ∧
    (((loadCities geoLines it1).map (fun c => c.CityLower)).Nodup →
      loadCities geoLines it1 = loadCities geoLines it2) := by
  have hp := loadCities_perm geoLines (h1.trans h2.symm)
  exact ⟨hp, loadCities_sorted _ _,
    fun hnd => sorted_nodup_eq hp (loadCities_sorted _ _) (loadCities_sorted _ _) hnd⟩

/-- C6 counterexample: on identical raw MaxMind input (two rows whose
case-folded city name is `"foo"` in both), two legal iteration orders of
the dedupe map yield different sorted stores — the rebuild is not
deterministic — although the case-folded name sequences agree. -/
theorem build_not_deterministic :
    ValidIteration [mmRow1, mmRow2] ((maxmindDedupe [mmRow1, mmRow2]).map Prod.snd) ∧
    ValidIteration [mmRow1, mmRow2]
      ((maxmindDedupe [mmRow1, mmRow2]).map Prod.snd).reverse ∧
    loadCities [] ((maxmindDedupe [mmRow1, mmRow2]).map Prod.snd) ≠
      loadCities [] ((maxmindDedupe [mmRow1, mmRow2]).map Prod.snd).reverse ∧
    (loadCities [] ((maxmindDedupe [mmRow1, mmRow2]).map Prod.snd)).map
      (fun c => c.CityLower) =
      (loadCities [] ((maxmindDedupe [mmRow1, mmRow2]).map Prod.snd).reverse).map
        (fun c => c.CityLower) :=
  ⟨List.Perm.refl _, List.reverse_perm _, by decide, by decide⟩

/-- C6 witness: the amended build properties at a concrete one-row input
with the identity iteration order on both sides. -/
theorem build_deterministic_amended_witness :
    (loadCities [] ((maxmindDedupe [mmRow1]).map Prod.snd)).Perm
      (loadCities [] ((maxmindDedupe [mmRow1]).map Prod.snd)) ∧
    List.Sorted cityLe (loadCities [] ((maxmindDedupe [mmRow1]).map Prod.snd)) ∧
    (((loadCities [] ((maxmindDedupe [mmRow1]).map Prod.snd)).map
        (fun c => c.CityLower)).Nodup →
      loadCities [] ((maxmindDedupe [mmRow1]).map Prod.snd) =
        loadCities [] ((maxmindDedupe [mmRow1]).map Prod.snd)) :=
  build_deterministic_amended [] [mmRow1] _ _ (List.Perm.refl _) (List.Perm.refl _)

end Geobed

namespace Geobed

/-- Every successful UTF-8 decode consumes at least one byte. -/
theorem decodeFirst_pos {s : ByteStr} {rk : Nat × Nat}
    (h : decodeFirst s = some rk) : 1 ≤ rk.2 := by
  rcases s with _ | ⟨b, rest⟩
  · simp [decodeFirst] at h
  · rcases rest with _ | ⟨c1, rest2⟩
    · simp only [decodeFirst] at h
      split_ifs at h <;> (simp only [Option.some.injEq] at h; subst h; simp)
    · rcases rest2 with _ | ⟨c2, rest3⟩
      · simp only [decodeFirst] at h
        split_ifs at h <;> (simp only [Option.some.injEq] at h; subst h; simp)
      · rcases rest3 with _ | ⟨c3, rest4⟩
        · simp only [decodeFirst] at h
          split_ifs at h <;> (simp only [Option.some.injEq] at h; subst h; simp)
        · simp only [decodeFirst] at h
          split_ifs at h <;> (simp only [Option.some.injEq] at h; subst h; simp)

/-- Decoding a nonempty string always yields a rune. -/
theorem decodeFirst_cons_ne_none (b : Nat) (rest : ByteStr) :
    decodeFirst (b :: rest) ≠ none := by
  rcases rest with _ | ⟨c1, rest2⟩
  · simp only [decodeFirst]
    split_ifs <;> simp
  · rcases rest2 with _ | ⟨c2, rest3⟩
    · simp only [decodeFirst]
      split_ifs <;> simp
    · rcases rest3 with _ | ⟨c3, rest4⟩
      · simp only [decodeFirst]
        split_ifs <;> simp
      · simp only [decodeFirst]
        split_ifs <;> simp

/-- `runesOf` is fuel-invariant once the fuel covers the string length. -/
theorem runesOf_fuel : ∀ (f1 f2 : Nat) (s : ByteStr), s.length ≤ f1 →
    s.length ≤ f2 → runesOf f1 s = runesOf f2 s := by
  intro f1
  induction f1 with
  | zero =>
    intro f2 s h1 _
    have hs : s = [] := List.length_eq_zero.mp (by omega)
    subst hs
    cases f2 <;> simp [runesOf, decodeFirst]
  | succ f ih =>
    intro f2 s h1 h2
    rcases s with _ | ⟨b, rest⟩
    · cases f2 <;> simp [runesOf, decodeFirst]
    · cases f2 with
      | zero => simp at h2
      | succ f2' =>
        simp only [runesOf]
        cases hd : decodeFirst (b :: rest) with
        | none => rfl
        | some rk =>
          rcases rk with ⟨r, k⟩
          have hk : 1 ≤ k := decodeFirst_pos hd
          dsimp only
          congr 1
          apply ih
          · rw [List.length_drop]
            simp only [List.length_cons] at h1 ⊢
            omega
          · rw [List.length_drop]
            simp only [List.length_cons] at h2 ⊢
            omega

/-- A string all of whose runes are whitespace is fully consumed by the
left trim. -/
theorem trimLeftSpace_of_allSpace : ∀ (fuel : Nat) (s : ByteStr),
    s.length ≤ fuel → allSpace s = true → trimLeftSpace fuel s = [] := by
  intro fuel
  induction fuel with
  | zero =>
    intro s hlen _
    have hs : s = [] := List.length_eq_zero.mp (by omega)
    subst hs; rfl
  | succ f ih =>
    intro s hlen hall
    rcases s with _ | ⟨b, rest⟩
    · simp [trimLeftSpace, decodeFirst]
    · simp only [trimLeftSpace]
      cases hd : decodeFirst (b :: rest) with
      | none => exact absurd hd (decodeFirst_cons_ne_none b rest)
      | some rk =>
        rcases rk with ⟨r, k⟩
        have hk : 1 ≤ k := decodeFirst_pos hd
        dsimp only
        have hrunes : runesOf (b :: rest).length (b :: rest) =
            r :: runesOf rest.length ((b :: rest).drop k) := by
          simp only [List.length_cons, runesOf, hd]
        rw [allSpace, hrunes] at hall
        simp only [List.all_cons, Bool.and_eq_true] at hall
        rw [if_pos hall.1]
        apply ih
        · rw [List.length_drop]
          simp only [List.length_cons] at hlen ⊢
          omega
        · rw [allSpace]
          have hfl : runesOf ((b :: rest).drop k).length ((b :: rest).drop k) =
              runesOf rest.length ((b :: rest).drop k) := by
            apply runesOf_fuel
            · exact le_refl _
            · rw [List.length_drop]; simp; omega
          rw [hfl]
          exact hall.2

/-- C7: a query that is empty or consists only of whitespace runes is
trimmed to the empty string and Geocode returns the sentinel empty City
immediately — for every store, index, and detection pass, without
computing any candidate score. -/
theorem geocode_whitespace_sentinel
    (detect : ByteStr → ByteStr × ByteStr × ByteStr)
    (store : List GeobedCity) (idx : List (ByteStr × Nat)) (q : ByteStr)
    (h : allSpace q = true) :
    geocode detect store idx q = some emptyCity := by
  have h1 : trimLeftSpace q.length q = [] :=
    trimLeftSpace_of_allSpace q.length q (le_refl _) h
  have h2 : trimSpace q = [] := by
    unfold trimSpace
    rw [h1]
    cases q.length <;> simp [trimRightSpace, decodeLast]
  simp only [geocode]
  rw [h2, if_pos rfl]

/-- C7 witness: the one-space query on an arbitrary small instance. -/
theorem geocode_whitespace_sentinel_witness :
    geocode (fun n => (n, [], [])) [] [] [32] = some emptyCity :=
  geocode_whitespace_sentinel (fun n => (n, [], [])) [] [] [32] (by decide)

end Geobed
